import Mathlib

/-!
Shallow embedding of the consolidation / aggregation core of the Auto-Veille
vulnerability tracker (`src/database/db.py`), together with proofs about the
claims of its specification.

The SQLite store is modelled by plain lists of rows (`TrackRow` for the
`client_vuln_tracking` table, `VulnFact` for the `vulnerabilities` table).
All TEXT columns are Lean `String`s; SQL and Python string comparison
(memcmp / code-point lexicographic) is modelled by an executable
lexicographic order `strLt` / `strLe` on `String.data`.
-/

namespace AutoVeille

/-! ## String ordering (SQL TEXT comparison / Python `str` comparison)

SQLite compares TEXT with memcmp and Python compares `str` code point by
code point; both coincide with lexicographic order on the list of code
points for the data handled here.  We define an executable version. -/

/-- Lexicographic strict order on lists of characters, by code point. -/
def strLtAux : List Char → List Char → Bool
  | _, [] => false
  | [], _ :: _ => true
  | a :: as, b :: bs =>
    if a.val.toNat < b.val.toNat then true
    else if b.val.toNat < a.val.toNat then false
    else strLtAux as bs

/-- Strict lexicographic order on strings (code-point order). -/
def strLt (a b : String) : Bool := strLtAux a.data b.data

/-- Non-strict lexicographic order on strings. -/
def strLe (a b : String) : Bool := !(strLt b a)

theorem strLtAux_irrefl (l : List Char) : strLtAux l l = false := by
  induction l with
  | nil => rfl
  | cons a as ih => simp [strLtAux, ih]

theorem strLtAux_trans :
    ∀ {a b c : List Char}, strLtAux a b = true → strLtAux b c = true →
      strLtAux a c = true := by
  intro a
  induction a with
  | nil =>
    intro b c _ hbc
    cases c with
    | nil =>
      cases b with
      | nil => simpa using hbc
      | cons y ys => simp [strLtAux] at hbc
    | cons z zs => simp [strLtAux]
  | cons x xs ih =>
    intro b c hab hbc
    cases b with
    | nil => simp [strLtAux] at hab
    | cons y ys =>
      cases c with
      | nil => simp [strLtAux] at hbc
      | cons z zs =>
        simp only [strLtAux] at hab hbc ⊢
        by_cases hxy : x.val.toNat < y.val.toNat
        · by_cases hyz : y.val.toNat < z.val.toNat
          · rw [if_pos (Nat.lt_trans hxy hyz)]
          · rw [if_neg hyz] at hbc
            by_cases hzy : z.val.toNat < y.val.toNat
            · rw [if_pos hzy] at hbc
              cases hbc
            · rw [if_neg hzy] at hbc
              have hxz : x.val.toNat < z.val.toNat := by omega
              rw [if_pos hxz]
        · rw [if_neg hxy] at hab
          by_cases hyx : y.val.toNat < x.val.toNat
          · rw [if_pos hyx] at hab
            cases hab
          · rw [if_neg hyx] at hab
            by_cases hyz : y.val.toNat < z.val.toNat
            · have hxz : x.val.toNat < z.val.toNat := by omega
              rw [if_pos hxz]
            · rw [if_neg hyz] at hbc
              by_cases hzy : z.val.toNat < y.val.toNat
              · rw [if_pos hzy] at hbc
                cases hbc
              · rw [if_neg hzy] at hbc
                have hxz : ¬ x.val.toNat < z.val.toNat := by omega
                have hzx : ¬ z.val.toNat < x.val.toNat := by omega
                rw [if_neg hxz, if_neg hzx]
                exact ih hab hbc

theorem strLtAux_eq_of_not :
    ∀ {a b : List Char}, strLtAux a b = false → strLtAux b a = false → a = b := by
  intro a
  induction a with
  | nil =>
    intro b hab _
    cases b with
    | nil => rfl
    | cons y ys => simp [strLtAux] at hab
  | cons x xs ih =>
    intro b hab hba
    cases b with
    | nil => simp [strLtAux] at hba
    | cons y ys =>
      simp only [strLtAux] at hab hba
      by_cases hxy : x.val.toNat < y.val.toNat
      · simp [hxy] at hab
      · by_cases hyx : y.val.toNat < x.val.toNat
        · simp [hyx] at hba
        · simp [hxy, hyx] at hab hba
          have : x = y := Char.ext (UInt32.toNat.inj (by omega))
          rw [this, ih hab hba]

theorem strLt_irrefl (a : String) : strLt a a = false := strLtAux_irrefl _

theorem strLt_trans {a b c : String} (h1 : strLt a b = true)
    (h2 : strLt b c = true) : strLt a c = true := strLtAux_trans h1 h2

theorem strLt_eq_of_not {a b : String} (h1 : strLt a b = false)
    (h2 : strLt b a = false) : a = b :=
  String.ext (strLtAux_eq_of_not h1 h2)

theorem strLt_asymm {a b : String} (h : strLt a b = true) : strLt b a = false := by
  by_contra hc
  have hba : strLt b a = true := by
    cases h' : strLt b a
    · exact absurd h' hc
    · rfl
  have := strLt_trans h hba
  rw [strLt_irrefl] at this
  exact Bool.false_ne_true this

theorem strLe_refl (a : String) : strLe a a = true := by
  simp [strLe, strLt_irrefl]

theorem strLe_total (a b : String) : strLe a b = true ∨ strLe b a = true := by
  by_cases h : strLt b a = true
  · right
    simp [strLe, strLt_asymm h]
  · left
    simp [strLe]
    cases h' : strLt b a
    · rfl
    · exact absurd h' h

theorem strLe_trans {a b c : String} (h1 : strLe a b = true)
    (h2 : strLe b c = true) : strLe a c = true := by
  simp only [strLe, Bool.not_eq_true'] at h1 h2 ⊢
  by_contra hc
  have hca : strLt c a = true := by
    cases h' : strLt c a
    · exact absurd h' hc
    · rfl
  cases hab : strLt a b with
  | false =>
    have hba : a = b := strLt_eq_of_not hab h1
    subst hba
    rw [hca] at h2
    cases h2
  | true =>
    have hcb : strLt c b = true := strLt_trans hca hab
    rw [hcb] at h2
    cases h2

theorem strLe_of_strLt {a b : String} (h : strLt a b = true) : strLe a b = true := by
  simp [strLe, strLt_asymm h]

theorem strLe_antisymm {a b : String} (h1 : strLe a b = true)
    (h2 : strLe b a = true) : a = b := by
  simp only [strLe, Bool.not_eq_true'] at h1 h2
  exact strLt_eq_of_not h2 h1

/-! ## Python `min` / `max` helpers

Python's `min(iterable, key=f)` returns the leftmost element whose key is
minimal (later elements replace the current minimum only when strictly
smaller); `max` is dual.  `max(iterable, default=d)` returns `d` on an
empty iterable. -/

/-- Python `min(l, key=f)` for a `Nat`-valued key: leftmost minimum. -/
def pyMinBy (f : α → Nat) : List α → Option α
  | [] => none
  | a :: as =>
    match pyMinBy f as with
    | none => some a
    | some b => if f a ≤ f b then some a else some b

theorem pyMinBy_mem {f : α → Nat} :
    ∀ {l : List α} {m : α}, pyMinBy f l = some m → m ∈ l := by
  intro l
  induction l with
  | nil => intro m h; simp [pyMinBy] at h
  | cons a as ih =>
    intro m h
    cases hrec : pyMinBy f as with
    | none =>
      simp only [pyMinBy, hrec, Option.some.injEq] at h
      simp [h]
    | some b =>
      simp only [pyMinBy, hrec] at h
      by_cases hle : f a ≤ f b
      · rw [if_pos hle, Option.some.injEq] at h
        simp [h]
      · rw [if_neg hle, Option.some.injEq] at h
        exact List.mem_cons_of_mem a (h ▸ ih hrec)

theorem pyMinBy_isSome {f : α → Nat} :
    ∀ {l : List α}, l ≠ [] → (pyMinBy f l).isSome = true := by
  intro l h
  cases l with
  | nil => exact absurd rfl h
  | cons a as =>
    simp only [pyMinBy]
    cases pyMinBy f as with
    | none => rfl
    | some b =>
      by_cases hle : f a ≤ f b <;> simp [hle]

theorem pyMinBy_min {f : α → Nat} :
    ∀ {l : List α} {m : α}, pyMinBy f l = some m → ∀ x ∈ l, f m ≤ f x := by
  intro l
  induction l with
  | nil => intro m h; simp [pyMinBy] at h
  | cons a as ih =>
    intro m h x hx
    cases hrec : pyMinBy f as with
    | none =>
      have hnil : as = [] := by
        cases as with
        | nil => rfl
        | cons c cs =>
          exfalso
          have := @pyMinBy_isSome _ f (c :: cs) (by simp)
          rw [hrec] at this
          cases this
      subst hnil
      simp only [pyMinBy, Option.some.injEq] at h
      subst h
      simp only [List.mem_singleton] at hx
      simp [hx]
    | some b =>
      simp only [pyMinBy, hrec] at h
      rcases List.mem_cons.mp hx with hxa | hxas
      · by_cases hle : f a ≤ f b
        · rw [if_pos hle, Option.some.injEq] at h
          rw [hxa, ← h]
        · rw [if_neg hle, Option.some.injEq] at h
          rw [hxa, ← h]
          omega
      · have hb := ih hrec x hxas
        by_cases hle : f a ≤ f b
        · rw [if_pos hle, Option.some.injEq] at h
          subst h
          omega
        · rw [if_neg hle, Option.some.injEq] at h
          subst h
          exact hb

/-- Python `max(l, default=d)` over strings (code-point comparison). -/
def strMaxD (d : String) : List String → String
  | [] => d
  | a :: as => as.foldl (fun c x => if strLt c x then x else c) a

theorem strMaxD_mem_aux :
    ∀ (as : List String) (c : String),
      as.foldl (fun c x => if strLt c x then x else c) c = c ∨
        as.foldl (fun c x => if strLt c x then x else c) c ∈ as := by
  intro as
  induction as with
  | nil => intro c; left; rfl
  | cons x xs ih =>
    intro c
    simp only [List.foldl_cons]
    by_cases h : strLt c x = true
    · simp [h]
      rcases ih x with h' | h'
      · right; left; exact h'
      · right; right; exact h'
    · have h' : strLt c x = false := by
        cases hh : strLt c x
        · rfl
        · exact absurd hh h
      simp [h']
      rcases ih c with h'' | h''
      · left; exact h''
      · right; right; exact h''

theorem strMaxD_mem {d : String} {l : List String} (h : l ≠ []) :
    strMaxD d l ∈ l := by
  cases l with
  | nil => exact absurd rfl h
  | cons a as =>
    simp only [strMaxD]
    rcases strMaxD_mem_aux as a with h' | h'
    · rw [h']; exact List.mem_cons_self a as
    · exact List.mem_cons_of_mem a h'

theorem strMaxD_le_aux :
    ∀ (as : List String) (c : String),
      strLe c (as.foldl (fun c x => if strLt c x then x else c) c) = true ∧
        ∀ x ∈ as, strLe x (as.foldl (fun c x => if strLt c x then x else c) c) = true := by
  intro as
  induction as with
  | nil => intro c; exact ⟨strLe_refl c, by simp⟩
  | cons y ys ih =>
    intro c
    simp only [List.foldl_cons]
    by_cases h : strLt c y = true
    · rw [if_pos h]
      obtain ⟨h1, h2⟩ := ih y
      constructor
      · exact strLe_trans (strLe_of_strLt h) h1
      · intro x hx
        rcases List.mem_cons.mp hx with hxy | hxys
        · subst hxy; exact h1
        · exact h2 x hxys
    · rw [if_neg h]
      obtain ⟨h1, h2⟩ := ih c
      constructor
      · exact h1
      · intro x hx
        rcases List.mem_cons.mp hx with hxy | hxys
        · subst hxy
          have hf : strLt c x = false := by
            cases hh : strLt c x
            · rfl
            · exact absurd hh h
          exact strLe_trans (by simp [strLe, hf]) h1
        · exact h2 x hxys

theorem strMaxD_le {d : String} {l : List String} :
    ∀ x ∈ l, strLe x (strMaxD d l) = true := by
  intro x hx
  cases l with
  | nil => simp at hx
  | cons a as =>
    simp only [strMaxD]
    obtain ⟨h1, h2⟩ := strMaxD_le_aux as a
    rcases List.mem_cons.mp hx with hxa | hxas
    · subst hxa; exact h1
    · exact h2 x hxas

/-! ## Gregorian calendar arithmetic (`datetime.strptime` / date subtraction)

`calculate_age_and_sla` parses both dates with `datetime.strptime(s,
'%Y-%m-%d')` and subtracts the resulting dates; the difference in days is
the difference of the proleptic-Gregorian ordinals (`date.toordinal`). -/

/-- Gregorian leap-year test. -/
def isLeap (y : Nat) : Bool := (y % 4 = 0 && y % 100 != 0) || y % 400 = 0

/-- Number of days in month `m` of year `y` (months are 1-based). -/
def daysInMonth (y m : Nat) : Nat :=
  if m = 2 then (if isLeap y then 29 else 28)
  else if m = 4 ∨ m = 6 ∨ m = 9 ∨ m = 11 then 30
  else 31

/-- Days in year `y` before the first day of month `m`. -/
def daysBeforeMonth (y m : Nat) : Nat :=
  ((List.range (m - 1)).map (fun i => daysInMonth y (i + 1))).sum

/-- Proleptic-Gregorian ordinal of the date `y-m-d` (Python
`date(y, m, d).toordinal()`): day 1 is 0001-01-01. -/
def toOrdinal (y m d : Nat) : Nat :=
  365 * (y - 1) + (y - 1) / 4 - (y - 1) / 100 + (y - 1) / 400 + daysBeforeMonth y m + d

/-- Split a character list on `-` separators (like `str.split('-')`). -/
def splitDash : List Char → List (List Char)
  | [] => [[]]
  | c :: cs =>
    let r := splitDash cs
    if c = '-' then [] :: r
    else
      match r with
      | [] => [[c]]
      | g :: gs => (c :: g) :: gs

/-- Numeric value of a list of decimal digits. -/
def digitsToNat (l : List Char) : Nat :=
  l.foldl (fun n c => 10 * n + (c.val.toNat - 48)) 0

/-- Parse `YYYY-MM-DD` exactly as `datetime.strptime(s, '%Y-%m-%d')` accepts
it: three dash-separated all-digit fields, the year exactly 4 digits, month
and day 1 or 2 digits; the month must be 1..12, the day 1..`daysInMonth`,
and the year at least 1 (`datetime.MINYEAR`).  Returns `none` exactly when
`strptime` (or the `datetime` constructor) raises. -/
def parseYMD (s : String) : Option (Nat × Nat × Nat) :=
  match splitDash s.data with
  | [ys, ms, ds] =>
    if ys.length = 4 && ys.all Char.isDigit &&
        decide (1 ≤ ms.length) && decide (ms.length ≤ 2) && ms.all Char.isDigit &&
        decide (1 ≤ ds.length) && decide (ds.length ≤ 2) && ds.all Char.isDigit then
      let y := digitsToNat ys
      let m := digitsToNat ms
      let d := digitsToNat ds
      if 1 ≤ y ∧ 1 ≤ m ∧ m ≤ 12 ∧ 1 ≤ d ∧ d ≤ daysInMonth y m then
        some (y, m, d)
      else none
    else none
  | _ => none

/-- SLA verdict strings used by the code. -/
def slaBreached : String := "Hors délai de remediation"

def slaWithin : String := "Traité dans le délai"

def slaUnknown : String := "N/A"

/-- `calculate_age_and_sla` (db.py lines 98-116): the age in days is the
treatment date minus the release date; the verdict is breached exactly when
the age exceeds `processing_time`; any parse failure degrades to
`(0, "N/A")` via the bare `except`. -/
def calculate_age_and_sla (date_sortie date_traitement : String)
    (processing_time : Int) : Int × String :=
  match parseYMD date_sortie, parseYMD date_traitement with
  | some (ys, ms, ds), some (yt, mt, dt) =>
    let age_days : Int := (toOrdinal yt mt dt : Int) - (toOrdinal ys ms ds : Int)
    if age_days > processing_time then (age_days, slaBreached)
    else (age_days, slaWithin)
  | _, _ => (0, slaUnknown)

/-! ## Data model

`vulnerabilities` and `client_vuln_tracking` rows (setup_db.py); all TEXT
columns are strings, `id` is the INTEGER PRIMARY KEY of a tracking row,
`processing_time` the INTEGER SLA in days. -/

/-- One row of the `client_vuln_tracking` table. -/
structure TrackRow where
  id : Nat
  id_bulletin : String
  cve_id : String
  client : String
  status : String
  Responsable_resolution : String
  Date_de_traitement : String
  comment : String
deriving DecidableEq, Inhabited

/-- One row of the `vulnerabilities` table. -/
structure VulnFact where
  id_bulletin : String
  cve_id : String
  produit_name : String
  Date_de_sortie : String
  description : String
  Niveau_de_risque : String
  severity : String
  risk : String
  processing_time : Int
  mitigation : String
  Reference : String
  Date_de_notification : String
deriving DecidableEq, Inhabited

/-- One row of the `SELECT ... FROM client_vuln_tracking t JOIN
vulnerabilities v ON t.id_bulletin = v.id_bulletin AND t.cve_id = v.cve_id`
result used by `get_client_vulns`. -/
structure JRow where
  id : Nat
  client : String
  id_bulletin : String
  cve_id : String
  produit_name : String
  description : String
  Date_de_sortie : String
  risk : String
  Niveau_de_risque : String
  processing_time : Int
  mitigation : String
  Reference : String
  Date_de_notification : String
  status : String
  Responsable_resolution : String
  Date_de_traitement : String
  comment : String
deriving DecidableEq, Inhabited

/-- Combine a tracking row with its joined vulnerability fact. -/
def joinRow (t : TrackRow) (v : VulnFact) : JRow where
  id := t.id
  client := t.client
  id_bulletin := t.id_bulletin
  cve_id := t.cve_id
  produit_name := v.produit_name
  description := v.description
  Date_de_sortie := v.Date_de_sortie
  risk := v.risk
  Niveau_de_risque := v.Niveau_de_risque
  processing_time := v.processing_time
  mitigation := v.mitigation
  Reference := v.Reference
  Date_de_notification := v.Date_de_notification
  status := t.status
  Responsable_resolution := t.Responsable_resolution
  Date_de_traitement := t.Date_de_traitement
  comment := t.comment

/-- The inner join `t JOIN v ON t.id_bulletin = v.id_bulletin AND t.cve_id =
v.cve_id`: every matching (tracking row, fact) pair produces one joined row;
tracking rows with a dangling foreign key produce none. -/
def sqlJoin (ts : List TrackRow) (vs : List VulnFact) : List JRow :=
  ts.flatMap fun t =>
    (vs.filter fun v =>
        decide (v.id_bulletin = t.id_bulletin) && decide (v.cve_id = t.cve_id)).map
      (joinRow t)

/-- WHERE clause `t.client = ?` (absent when no client filter is given). -/
def clientFilter (client : Option String) (r : JRow) : Bool :=
  match client with
  | none => true
  | some c => decide (r.client = c)

/-- WHERE clause on `v.Date_de_sortie` built from the optional start/end
dates (SQL `BETWEEN`/`>=`/`<=` compares TEXT with memcmp). -/
def dateRangeFilter (start_date end_date : Option String) (r : JRow) : Bool :=
  match start_date, end_date with
  | some s, some e => strLe s r.Date_de_sortie && strLe r.Date_de_sortie e
  | some s, none => strLe s r.Date_de_sortie
  | none, some e => strLe r.Date_de_sortie e
  | none, none => true

/-- WHERE clause `strftime('%Y-%m', v.Date_de_sortie) = ?` used by the KPI
aggregators; for the `YYYY-MM-DD` TEXT dates stored by the application this
is the first seven characters of the date. -/
def monthFilter (month : Option String) (r : JRow) : Bool :=
  match month with
  | none => true
  | some m => decide (r.Date_de_sortie.data.take 7 = m.data)

/-- The SQL sort key `ORDER BY v.Date_de_sortie DESC, t.id_bulletin,
t.client, t.cve_id` of `get_client_vulns`, as a total preorder on joined
rows. -/
def rowLeP (a b : JRow) : Prop :=
  strLt b.Date_de_sortie a.Date_de_sortie = true ∨
    (b.Date_de_sortie = a.Date_de_sortie ∧
      (strLt a.id_bulletin b.id_bulletin = true ∨
        (a.id_bulletin = b.id_bulletin ∧
          (strLt a.client b.client = true ∨
            (a.client = b.client ∧ strLe a.cve_id b.cve_id = true)))))

instance : DecidableRel rowLeP := fun a b => by
  unfold rowLeP
  infer_instance

theorem str_tri (x y : String) :
    strLt x y = true ∨ x = y ∨ strLt y x = true := by
  cases h1 : strLt x y
  · cases h2 : strLt y x
    · right; left; exact strLt_eq_of_not h1 h2
    · right; right; rfl
  · left; rfl

instance : IsTotal JRow rowLeP where
  total a b := by
    unfold rowLeP
    rcases str_tri b.Date_de_sortie a.Date_de_sortie with h | h | h
    · exact Or.inl (Or.inl h)
    · rcases str_tri a.id_bulletin b.id_bulletin with h2 | h2 | h2
      · exact Or.inl (Or.inr ⟨h, Or.inl h2⟩)
      · rcases str_tri a.client b.client with h3 | h3 | h3
        · exact Or.inl (Or.inr ⟨h, Or.inr ⟨h2, Or.inl h3⟩⟩)
        · rcases strLe_total a.cve_id b.cve_id with h4 | h4
          · exact Or.inl (Or.inr ⟨h, Or.inr ⟨h2, Or.inr ⟨h3, h4⟩⟩⟩)
          · exact Or.inr (Or.inr ⟨h.symm, Or.inr ⟨h2.symm, Or.inr ⟨h3.symm, h4⟩⟩⟩)
        · exact Or.inr (Or.inr ⟨h.symm, Or.inr ⟨h2.symm, Or.inl h3⟩⟩)
      · exact Or.inr (Or.inr ⟨h.symm, Or.inl h2⟩)
    · exact Or.inr (Or.inl h)

instance : IsTrans JRow rowLeP where
  trans a b c := by
    intro h1 h2
    unfold rowLeP at h1 h2 ⊢
    rcases h1 with h1 | ⟨hd1, h1⟩
    · rcases h2 with h2 | ⟨hd2, h2⟩
      · exact Or.inl (strLt_trans h2 h1)
      · exact Or.inl (by rw [hd2]; exact h1)
    · rcases h2 with h2 | ⟨hd2, h2⟩
      · exact Or.inl (by rw [← hd1]; exact h2)
      · refine Or.inr ⟨hd2.trans hd1, ?_⟩
        rcases h1 with hb1 | ⟨he1, h1⟩
        · rcases h2 with hb2 | ⟨he2, h2⟩
          · exact Or.inl (strLt_trans hb1 hb2)
          · exact Or.inl (by rw [← he2]; exact hb1)
        · rcases h2 with hb2 | ⟨he2, h2⟩
          · exact Or.inl (by rw [he1]; exact hb2)
          · refine Or.inr ⟨he1.trans he2, ?_⟩
            rcases h1 with hc1 | ⟨hf1, h1⟩
            · rcases h2 with hc2 | ⟨hf2, h2⟩
              · exact Or.inl (strLt_trans hc1 hc2)
              · exact Or.inl (by rw [← hf2]; exact hc1)
            · rcases h2 with hc2 | ⟨hf2, h2⟩
              · exact Or.inl (by rw [hf1]; exact hc2)
              · exact Or.inr ⟨hf1.trans hf2, strLe_trans h1 h2⟩

/-! ## Grouping (Python `defaultdict(list)` keyed by `(id_bulletin, client)`)

Iterating a Python dict yields keys in first-insertion order, so the
consolidated output lists one entry per distinct key, in order of the key's
first occurrence in the (sorted) row list. -/

/-- Keys of a list in order of first occurrence (Python dict insertion
order), for an arbitrary key function. -/
def firstOccs {α β : Type} [DecidableEq β] (f : α → β) : List α → List β
  | [] => []
  | r :: rs => f r :: (firstOccs f rs).filter (fun k => decide (k ≠ f r))

theorem mem_firstOccs {α β : Type} [DecidableEq β] (f : α → β) :
    ∀ {l : List α} {k : β}, k ∈ firstOccs f l ↔ ∃ r ∈ l, f r = k := by
  intro l
  induction l with
  | nil => intro k; simp [firstOccs]
  | cons a as ih =>
    intro k
    simp only [firstOccs, List.mem_cons, List.mem_filter, decide_eq_true_eq]
    constructor
    · rintro (rfl | ⟨hk, _⟩)
      · exact ⟨a, by simp⟩
      · obtain ⟨r, hr, hrk⟩ := ih.mp hk
        exact ⟨r, by simp [hr], hrk⟩
    · rintro ⟨r, hr, hrk⟩
      rcases hr with rfl | hras
      · exact Or.inl hrk.symm
      · by_cases hk : k = f a
        · exact Or.inl hk
        · exact Or.inr ⟨ih.mpr ⟨r, hras, hrk⟩, hk⟩

theorem nodup_firstOccs {α β : Type} [DecidableEq β] (f : α → β) :
    ∀ l : List α, (firstOccs f l).Nodup := by
  intro l
  induction l with
  | nil => exact List.nodup_nil
  | cons a as ih =>
    simp only [firstOccs, List.nodup_cons]
    constructor
    · intro hmem
      simpa using (List.mem_filter.mp hmem).2
    · exact ih.filter _

/-- The group key used by the Consolidation Engine. -/
def groupKey (r : JRow) : String × String := (r.id_bulletin, r.client)

/-- A Consolidated Record: the dict built for each `(id_bulletin, client)`
group by `get_client_vulns` (db.py lines 206-232). -/
structure CRow where
  id : Nat
  client : String
  id_bulletin : String
  cves : String
  produit_name : String
  description : String
  Date_de_sortie : String
  risk : String
  Niveau_de_risque : String
  processing_time : Int
  mitigation : String
  Reference : String
  Date_de_notification : String
  status : String
  Responsable_resolution : String
  Date_de_traitement : String
  comment : String
  age_alerte : Int
  sla : String
deriving DecidableEq, Inhabited

/-! ## Consolidation Engine (`get_client_vulns`, db.py lines 118-234) -/

/-- The four closed status variants (db.py line 190). -/
def closed_statuses : List String :=
  ["Clos", "Clos (Patch cumulative)", "Clos (Non concerné)", "Clos (Traité)"]

/-- Python `status in closed_statuses`. -/
def is_closed (s : String) : Bool := decide (s ∈ closed_statuses)

/-- The eight statuses of the spec's status enum (the keys of the
`status_priority` dictionary). -/
def known_statuses : List String :=
  ["Open", "WIP", "Pending", "NOK", "Clos", "Clos (Patch cumulative)",
   "Clos (Non concerné)", "Clos (Traité)"]

/-- The status priority dictionary (db.py lines 178-187); like
`status_priority.get(s, 99)`, any unknown status gets priority 99. -/
def status_priority (s : String) : Nat :=
  if s = "Open" then 1
  else if s = "WIP" then 2
  else if s = "Pending" then 3
  else if s = "NOK" then 4
  else if s = "Clos" then 5
  else if s = "Clos (Patch cumulative)" then 5
  else if s = "Clos (Non concerné)" then 5
  else if s = "Clos (Traité)" then 5
  else 99

/-- Python `', '.join(l)`. -/
def joinCommaSp : List String → String
  | [] => ""
  | a :: as => as.foldl (fun acc s => acc ++ ", " ++ s) a

/-- String comparison as a decidable relation, for `sorted(...)`. -/
def strLeP (a b : String) : Prop := strLe a b = true

instance : DecidableRel strLeP := fun a b => by
  unfold strLeP
  infer_instance

/-- Python `', '.join(sorted(set(cve ids of the group)))`. -/
def cvesOf (group_rows : List JRow) : String :=
  joinCommaSp (List.insertionSort strLeP (group_rows.map (·.cve_id)).dedup)

/-- Consolidate one `(id_bulletin, client)` group of joined rows into a
single record (the body of the loop at db.py lines 192-233).  The group is
never empty when called from `get_client_vulns` (groups come from existing
rows); on an empty group the Python code would raise in `min`/`max`, here
the string defaults are returned. -/
def consolidateGroup (id_bulletin client : String) (group_rows : List JRow) : CRow :=
  let all_statuses := group_rows.map (·.status)
  let group_status :=
    match pyMinBy status_priority all_statuses with
    | some s => s
    | none => ""
  let date_traitement :=
    if is_closed group_status then
      strMaxD "" (group_rows.map (·.Date_de_traitement))
    else
      strMaxD (strMaxD "" (group_rows.map (·.Date_de_traitement)))
        ((group_rows.filter fun r => !(is_closed r.status)).map (·.Date_de_traitement))
  let comment :=
    if is_closed group_status then
      strMaxD "" ((group_rows.filter fun r => is_closed r.status).map (·.comment))
    else
      strMaxD "" ((group_rows.filter fun r => decide (r.status = group_status)).map (·.comment))
  let base := group_rows.headI
  let ageSla := calculate_age_and_sla base.Date_de_sortie date_traitement base.processing_time
  { id := base.id
    client := client
    id_bulletin := id_bulletin
    cves := cvesOf group_rows
    produit_name := base.produit_name
    description := base.description
    Date_de_sortie := base.Date_de_sortie
    risk := base.risk
    Niveau_de_risque := base.Niveau_de_risque
    processing_time := base.processing_time
    mitigation := base.mitigation
    Reference := base.Reference
    Date_de_notification := base.Date_de_notification
    status := group_status
    Responsable_resolution := base.Responsable_resolution
    Date_de_traitement := date_traitement
    comment := comment
    age_alerte := ageSla.1
    sla := ageSla.2 }

/-- The row list `get_client_vulns` iterates over: the join, filtered by
the optional client and release-date range, in the order produced by
`ORDER BY v.Date_de_sortie DESC, t.id_bulletin, t.client, t.cve_id`. -/
def engineRows (ts : List TrackRow) (vs : List VulnFact)
    (client : Option String) (start_date end_date : Option String) : List JRow :=
  List.insertionSort rowLeP
    ((sqlJoin ts vs).filter fun r =>
      clientFilter client r && dateRangeFilter start_date end_date r)

/-- The rows of the `(id_bulletin, client)` group of `k` among the sorted,
filtered rows (`grouped[k]` in the Python code). -/
def engineGroup (ts : List TrackRow) (vs : List VulnFact)
    (client : Option String) (start_date end_date : Option String)
    (k : String × String) : List JRow :=
  (engineRows ts vs client start_date end_date).filter fun r => decide (groupKey r = k)

/-- `get_client_vulns` (db.py lines 118-234): join, filter, sort by the SQL
key, group by `(id_bulletin, client)` in first-occurrence order and
consolidate each group.  `clean_field` is the identity on the TEXT values
read back from the store (its `isinstance(field, str)` branch), so it is
not modelled separately. -/
def get_client_vulns (ts : List TrackRow) (vs : List VulnFact)
    (client : Option String) (start_date end_date : Option String) : List CRow :=
  (firstOccs groupKey (engineRows ts vs client start_date end_date)).map fun k =>
    consolidateGroup k.1 k.2 (engineGroup ts vs client start_date end_date k)

/-! ## Row-level mutators -/

/-- The statuses rolled over daily (db.py line 285). -/
def open_statuses : List String := ["Open", "WIP", "Pending", "NOK"]

/-- `update_daily_treatment_dates` (db.py lines 277-289): set the treatment
date to today's date for every row whose status is Open/WIP/Pending/NOK and
leave all other rows untouched. -/
def update_daily_treatment_dates (today : String) (ts : List TrackRow) : List TrackRow :=
  ts.map fun r =>
    if r.status ∈ open_statuses then { r with Date_de_traitement := today } else r

/-- Python truthiness of the optional `date_traitement` argument: `None`
and the empty string are falsy. -/
def py_truthy : Option String → Bool
  | none => false
  | some s => decide (s ≠ "")

/-- `update_client_vuln` (db.py lines 236-268): update status, comment and
(depending on the branch) the treatment date of every row whose `id` equals
`row_id`, leaving all other rows unchanged. -/
def update_client_vuln (ts : List TrackRow) (row_id : Nat)
    (status comment : String) (date_traitement : Option String)
    (today : String) : List TrackRow :=
  if py_truthy date_traitement then
    ts.map fun r =>
      if r.id = row_id then
        { r with status := status, comment := comment,
                 Date_de_traitement := date_traitement.getD "" }
      else r
  else if status ∈ open_statuses then
    ts.map fun r =>
      if r.id = row_id then
        { r with status := status, comment := comment, Date_de_traitement := today }
      else r
  else if status ∈ closed_statuses then
    ts.map fun r =>
      if r.id = row_id then { r with status := status, comment := comment } else r
  else
    ts.map fun r =>
      if r.id = row_id then
        { r with status := status, comment := comment, Date_de_traitement := today }
      else r

/-! ## KPI aggregators (db.py lines 431-478, 689-732, 734-873)

The KPI queries re-derive the bulletin-client grouping in SQL:
`GROUP BY t.client, t.id_bulletin` with `MIN(t.status)`.  SQL `MIN` on a
TEXT column is the memcmp-lexicographic minimum — not the
priority-table minimum used by `get_client_vulns`. -/

/-- SQL `MIN` over a TEXT column: lexicographically smallest value
("" for an empty group, which never occurs). -/
def sqlMinStr : List String → String
  | [] => ""
  | a :: as => as.foldl (fun c x => if strLt x c then x else c) a

/-- `MIN(t.status)` of a group of joined rows. -/
def sqlMinStatus (grp : List JRow) : String := sqlMinStr (grp.map (·.status))

/-- One output row of `SELECT t.client, t.id_bulletin, MIN(t.status) ...
GROUP BY t.client, t.id_bulletin`. -/
structure GRow where
  client : String
  id_bulletin : String
  status : String
deriving DecidableEq, Inhabited

/-- The KPI grouping key `(t.client, t.id_bulletin)`. -/
def kpiKey (r : JRow) : String × String := (r.client, r.id_bulletin)

/-- The joined rows seen by the KPI queries of `get_status_distribution`
and `get_open_vs_closed`: the join with the optional client and month
filters applied. -/
def kpiRows (ts : List TrackRow) (vs : List VulnFact)
    (client month : Option String) : List JRow :=
  (sqlJoin ts vs).filter fun r => clientFilter client r && monthFilter month r

/-- The rows of one `(t.client, t.id_bulletin)` SQL group. -/
def kpiGroup (ts : List TrackRow) (vs : List VulnFact)
    (client month : Option String) (k : String × String) : List JRow :=
  (kpiRows ts vs client month).filter fun r => decide (kpiKey r = k)

/-- The grouped rows produced by the KPI queries of
`get_status_distribution` and `get_open_vs_closed` (join, optional client
and month filters, `GROUP BY t.client, t.id_bulletin`, `MIN(t.status)`). -/
def kpiGroupedRows (ts : List TrackRow) (vs : List VulnFact)
    (client month : Option String) : List GRow :=
  (firstOccs kpiKey (kpiRows ts vs client month)).map fun k =>
    { client := k.1, id_bulletin := k.2,
      status := sqlMinStatus (kpiGroup ts vs client month k) }

/-- Ascending order on `(client, id_bulletin)` pairs, the
`ORDER BY t.client, t.id_bulletin` of `get_status_distribution`. -/
def pairLeP (a b : String × String) : Prop :=
  strLt a.1 b.1 = true ∨ (a.1 = b.1 ∧ strLe a.2 b.2 = true)

instance : DecidableRel pairLeP := fun a b => by
  unfold pairLeP
  infer_instance

/-- The grouped-and-ordered rows that `get_status_distribution` counts. -/
def get_status_distribution_rows (ts : List TrackRow) (vs : List VulnFact)
    (client month : Option String) : List GRow :=
  (List.insertionSort pairLeP (firstOccs kpiKey (kpiRows ts vs client month))).map fun k =>
    { client := k.1, id_bulletin := k.2,
      status := sqlMinStatus (kpiGroup ts vs client month k) }

/-- The count stored at `result[c][s]` in the nested dict returned by
`get_status_distribution(client=None, ...)` (0 when the key pair is
absent: each grouped row increments exactly its own `(client, status)`
cell by one). -/
def statusDistributionCount (ts : List TrackRow) (vs : List VulnFact)
    (month : Option String) (c s : String) : Nat :=
  (get_status_distribution_rows ts vs none month).countP fun g =>
    decide (g.client = c ∧ g.status = s)

/-- The sum of all counts of the nested dict returned by
`get_status_distribution(client=None, ...)`: each distinct
`(client, status)` cell contributes its count. -/
def statusDistributionTotal (ts : List TrackRow) (vs : List VulnFact)
    (month : Option String) : Nat :=
  let pairs := (get_status_distribution_rows ts vs none month).map fun g =>
    (g.client, g.status)
  (pairs.dedup.map fun q => pairs.countP fun x => decide (x = q)).sum

/-- `get_open_vs_closed` (db.py lines 689-732): over the grouped rows,
count the groups whose `MIN(t.status)` is exactly `Open` and the groups
whose `MIN(t.status)` is one of the four closed variants; all other
statuses are skipped.  Returned as `(result['Open'], result['Clos'])`. -/
def get_open_vs_closed (ts : List TrackRow) (vs : List VulnFact)
    (client month : Option String) : Nat × Nat :=
  let grows := kpiGroupedRows ts vs client month
  (grows.countP fun g => decide (g.status = "Open"),
   grows.countP fun g => is_closed g.status)

/-! ## Comprehensive table (db.py lines 734-873) -/

/-- `strftime('%Y-%m', v.Date_de_sortie)` for the `YYYY-MM-DD` TEXT dates
stored by the application: the first seven characters. -/
def monthOf (r : JRow) : String := (r.Date_de_sortie.data.take 7).asString

/-- The `CASE strftime('%m', ...) WHEN '01' THEN 'January' ... END` month
name (the empty string models SQL NULL when no branch matches). -/
def month_name_of (date : String) : String :=
  let mm := date.data.drop 5
  if mm = ['0', '1'] then "January"
  else if mm = ['0', '2'] then "February"
  else if mm = ['0', '3'] then "March"
  else if mm = ['0', '4'] then "April"
  else if mm = ['0', '5'] then "May"
  else if mm = ['0', '6'] then "June"
  else if mm = ['0', '7'] then "July"
  else if mm = ['0', '8'] then "August"
  else if mm = ['0', '9'] then "September"
  else if mm = ['1', '0'] then "October"
  else if mm = ['1', '1'] then "November"
  else if mm = ['1', '2'] then "December"
  else ""

/-- The `selected_months` filter: applied only when a non-empty list of
months is passed (Python truthiness of the list). -/
def selMonthsFilter (sel : Option (List String)) (r : JRow) : Bool :=
  match sel with
  | none => true
  | some ms => if ms.isEmpty then true else decide (monthOf r ∈ ms)

/-- One output row of the comprehensive-table query: `GROUP BY
strftime('%Y-%m', v.Date_de_sortie), t.client, t.id_bulletin` with
`MIN(t.status)`.  The `MIN(v.risk)` / `MIN(v.Niveau_de_risqué)` columns
feed only the per-risk display counters, which are independent of the
totals modelled here. -/
structure CompRow where
  month : String
  month_name : String
  client : String
  id_bulletin : String
  status : String
deriving DecidableEq, Inhabited

/-- The comprehensive-table grouping key. -/
def compKey (r : JRow) : String × String × String :=
  (monthOf r, r.client, r.id_bulletin)

/-- Ascending order on months, the `ORDER BY strftime('%Y-%m', ...)`. -/
def monthLeP (a b : String × String × String) : Prop := strLe a.1 b.1 = true

instance : DecidableRel monthLeP := fun a b => by
  unfold monthLeP
  infer_instance

/-- The grouped rows of the comprehensive-table query. -/
def get_comprehensive_rows (ts : List TrackRow) (vs : List VulnFact)
    (client : Option String) (selected_months : Option (List String)) :
    List CompRow :=
  let rows := (sqlJoin ts vs).filter fun r =>
    selMonthsFilter selected_months r && clientFilter client r
  (List.insertionSort monthLeP (firstOccs compKey rows)).map fun k =>
    { month := k.1, month_name := month_name_of k.1,
      client := k.2.1, id_bulletin := k.2.2,
      status := sqlMinStatus (rows.filter fun r => decide (compKey r = k)) }

/-- The statuses counted as ongoing (db.py line 804). -/
def ongoing_statuses : List String := ["Open", "WIP", "Pending", "NOK"]

/-- Per-month accumulator: the dict entry created at db.py lines 813-836,
restricted to the aggregate fields (the per-risk and per-status display
counters do not influence the totals or the percentage). -/
structure MonthAcc where
  month_name : String
  total_vulnerabilities : Nat
  total_closed : Nat
  total_ongoing : Nat
deriving DecidableEq, Inhabited

/-- Processing of one grouped row (db.py lines 806-857): create the month
entry if absent, then increment its totals. -/
def compStep (acc : List (String × MonthAcc)) (g : CompRow) :
    List (String × MonthAcc) :=
  let acc1 :=
    if acc.any fun p => decide (p.1 = g.month) then acc
    else acc ++ [(g.month,
      { month_name := g.month_name, total_vulnerabilities := 0,
        total_closed := 0, total_ongoing := 0 })]
  acc1.map fun p =>
    if p.1 = g.month then
      (p.1,
       { p.2 with
         total_vulnerabilities := p.2.total_vulnerabilities + 1
         total_closed := p.2.total_closed + (if g.status ∈ closed_statuses then 1 else 0)
         total_ongoing := p.2.total_ongoing + (if g.status ∈ ongoing_statuses then 1 else 0) })
    else p

/-- Floor of the base-2 logarithm of `n` (0 for `n ≤ 1`), written with
explicit fuel so that it evaluates inside the kernel. -/
def natLog2Aux : Nat → Nat → Nat
  | 0, _ => 0
  | _, 0 => 0
  | _, 1 => 0
  | fuel + 1, n => natLog2Aux fuel (n / 2) + 1

def natLog2 (n : Nat) : Nat := natLog2Aux n n

/-- Floor of the base-2 logarithm of the rational `n / d`, for
`n, d ≥ 1`. -/
def ratLog2 (n d : Nat) : Int :=
  let a : Int := natLog2 n
  let b : Int := natLog2 d
  let c : Int := a - b
  if d * 2 ^ c.toNat ≤ n * 2 ^ (-c).toNat then c else c - 1

/-- The exact value of the IEEE-754 binary64 double nearest to `n / d`
(ties to even), returned as a dyadic rational: a numerator and a
power-of-two denominator.  This is the result of a correctly rounded
binary64 operation whose exact value is `n / d`; it is faithful for
results in binary64's normal range, which covers every quotient the
percentage computation can produce.  Returns 0 for `n = 0` and for the
guarded-against `d = 0`. -/
def float64NearestRat (n d : Nat) : Nat × Nat :=
  if n = 0 ∨ d = 0 then (0, 1)
  else
    let E := ratLog2 n d
    let s : Int := 52 - E
    let num := n * 2 ^ s.toNat
    let den := d * 2 ^ (-s).toNat
    let m0 := num / den
    let r := num % den
    let m :=
      if 2 * r < den then m0
      else if den < 2 * r then m0 + 1
      else if m0 % 2 = 0 then m0 else m0 + 1
    (m * 2 ^ (E - 52).toNat, 2 ^ (52 - E).toNat)

/-- Round half to even of the exact rational `n / d`, for `d > 0`.
Python's `round()` applied to a float performs exactly this on the
float's (dyadic rational) value; applied to `100 * closed / total`
directly, it is the value the spec's formula denotes in exact
arithmetic. -/
def roundHalfEven (n d : Nat) : Nat :=
  let q := n / d
  let r := n % d
  if 2 * r < d then q
  else if d < 2 * r then q + 1
  else if q % 2 = 0 then q
  else q + 1

/-- `round((total_closed / total) * 100)` exactly as CPython evaluates it
(db.py line 863): correctly rounded binary64 division, correctly rounded
binary64 multiplication by 100 (100 is exactly representable), then
`round()`, which rounds the resulting double half to even.  Because of
the float evaluation this can differ by one from the exact-arithmetic
rounding of `100 * closed / total`: e.g. 23 closed of 40 gives
`round(57.49999999999999) = 57`, not `round(57.5) = 58`. -/
def py_round_percentage (closed total : Nat) : Nat :=
  let q1 := float64NearestRat closed total
  let q2 := float64NearestRat (q1.1 * 100) q1.2
  roundHalfEven q2.1 q2.2

/-- The finalized per-month entry (treatment-percentage loop at db.py
lines 859-865). -/
structure MonthData where
  month_name : String
  total_vulnerabilities : Nat
  total_closed : Nat
  total_ongoing : Nat
  treatment_percentage : Nat
deriving DecidableEq, Inhabited

/-- Second loop of `get_comprehensive_table`: attach
`treatment_percentage`, guarding the division by zero. -/
def finalizeMonth (p : String × MonthAcc) : String × MonthData :=
  (p.1,
   { month_name := p.2.month_name
     total_vulnerabilities := p.2.total_vulnerabilities
     total_closed := p.2.total_closed
     total_ongoing := p.2.total_ongoing
     treatment_percentage :=
       if 0 < p.2.total_vulnerabilities then
         py_round_percentage p.2.total_closed p.2.total_vulnerabilities
       else 0 })

/-- The value returned by `get_comprehensive_table`: the chronologically
sorted list of months with data, and the per-month entries. -/
structure CompTable where
  months : List String
  data : List (String × MonthData)
deriving DecidableEq, Inhabited

/-- `get_comprehensive_table` (db.py lines 734-873). -/
def get_comprehensive_table (ts : List TrackRow) (vs : List VulnFact)
    (client : Option String) (selected_months : Option (List String)) :
    CompTable :=
  let grows := get_comprehensive_rows ts vs client selected_months
  { months := List.insertionSort strLeP (firstOccs (fun g => g.month) grows)
    data := (grows.foldl compStep []).map finalizeMonth }

/-- The first row of each `(id_bulletin, client)` group, in
first-occurrence order: the representative rows whose fields the
consolidated records copy (`group_rows[0]` in the Python code). -/
def firstRows : List JRow → List JRow
  | [] => []
  | r :: rs => r :: (firstRows rs).filter fun x => decide (groupKey x ≠ groupKey r)

/-- The output order of the Consolidation Engine stated by the spec:
release date descending, then bulletin id, then client (strict, as group
keys are pairwise distinct). -/
def crowOrder (a b : CRow) : Prop :=
  strLt b.Date_de_sortie a.Date_de_sortie = true ∨
    (a.Date_de_sortie = b.Date_de_sortie ∧
      (strLt a.id_bulletin b.id_bulletin = true ∨
        (a.id_bulletin = b.id_bulletin ∧ strLt a.client b.client = true)))

/-! ## Concrete store contents used in witnesses and counterexamples -/

/-- A vulnerability fact of bulletin `B1` for the given CVE. -/
def factB1 (cve : String) : VulnFact :=
  { id_bulletin := "B1", cve_id := cve, produit_name := "Produit",
    Date_de_sortie := "2024-03-01", description := "desc",
    Niveau_de_risque := "Fort", severity := "7.5", risk := "Important",
    processing_time := 15, mitigation := "mit", Reference := "ref",
    Date_de_notification := "2024-03-01" }

/-- A tracking row of bulletin `B1` for client `Acme`. -/
def trackB1 (i : Nat) (cve status date comment : String) : TrackRow :=
  { id := i, id_bulletin := "B1", cve_id := cve, client := "Acme",
    status := status, Responsable_resolution := "SOC Team",
    Date_de_traitement := date, comment := comment }

/-- One `(B1, Acme)` group whose two CVE rows have statuses WIP and Clos. -/
def mixTs : List TrackRow :=
  [trackB1 1 "CVE-1" "WIP" "2024-03-05" "wip",
   trackB1 2 "CVE-2" "Clos" "2024-03-02" "done"]

def mixVs : List VulnFact := [factB1 "CVE-1", factB1 "CVE-2"]

/-- One `(B1, Acme)` group with statuses WIP, Clos and Open. -/
def triTs : List TrackRow :=
  [trackB1 1 "CVE-1" "WIP" "2024-03-05" "wip",
   trackB1 2 "CVE-2" "Clos" "2024-03-02" "done",
   trackB1 3 "CVE-3" "Open" "2024-03-06" "new"]

def triVs : List VulnFact := [factB1 "CVE-1", factB1 "CVE-2", factB1 "CVE-3"]

/-- One `(B1, Acme)` group with two closed rows: the row with the later
treatment date carries the lexicographically smaller comment. -/
def closTs : List TrackRow :=
  [trackB1 1 "CVE-1" "Clos" "2024-03-01" "aaa",
   trackB1 2 "CVE-2" "Clos (Traité)" "2024-01-01" "zzz"]

def closVs : List VulnFact := [factB1 "CVE-1", factB1 "CVE-2"]

/-- A mixed store for the rollover and single-row-update claims. -/
def rowOpen : TrackRow := trackB1 1 "CVE-1" "Open" "2024-04-01" "c1"

def rowClos : TrackRow := trackB1 2 "CVE-2" "Clos" "2024-04-02" "c2"

/-- A fact for an arbitrary bulletin and release date. -/
def ordFact (b cve date : String) : VulnFact :=
  { (factB1 cve) with
    id_bulletin := b
    Date_de_sortie := date
    Date_de_notification := date }

/-- A tracking row for an arbitrary bulletin. -/
def ordTrack (i : Nat) (b cve : String) : TrackRow :=
  { (trackB1 i cve "Open" "2024-05-02" "c") with id_bulletin := b }

/-- Pairwise-distinct client names (all-'c' strings of distinct
lengths). -/
def pctClient (i : Nat) : String := String.mk (List.replicate (i + 1) 'c')

/-- Forty single-row groups of bulletin B1 (released 2024-03-01) for
forty distinct clients, the first 23 of them closed: the 2024-03 month
entry of the comprehensive table gets total 40, closed 23. -/
def pctTs : List TrackRow :=
  (List.range 40).map fun i =>
    { id := i + 1, id_bulletin := "B1", cve_id := "CVE-1",
      client := pctClient i,
      status := if i < 23 then "Clos" else "Open",
      Responsable_resolution := "SOC Team",
      Date_de_traitement := "2024-03-02", comment := "c" }

def pctVs : List VulnFact := [factB1 "CVE-1"]

/-- Three single-row groups: B2 and B0 released 2024-05-01, B1 released
2024-03-01; the consolidated output must list B0, B2, B1. -/
def ordTs : List TrackRow :=
  [ordTrack 1 "B1" "CVE-1", ordTrack 2 "B2" "CVE-1", ordTrack 3 "B0" "CVE-1"]

def ordVs : List VulnFact :=
  [ordFact "B1" "CVE-1" "2024-03-01", ordFact "B2" "CVE-1" "2024-05-01",
   ordFact "B0" "CVE-1" "2024-05-01"]

/-! ## General lemmas about the embedding -/

theorem countP_eq_one_of_nodup_mem {α : Type} [DecidableEq α] {l : List α}
    {x : α} (hnd : l.Nodup) (hx : x ∈ l) :
    l.countP (fun k => decide (k = x)) = 1 := by
  induction l with
  | nil => simp at hx
  | cons a as ih =>
    rw [List.countP_cons, List.nodup_cons] at *
    rcases List.mem_cons.mp hx with rfl | hxas
    · have hz : as.countP (fun k => decide (k = x)) = 0 := by
        rw [List.countP_eq_zero]
        intro k hk
        simp only [decide_eq_true_eq]
        rintro rfl
        exact hnd.1 hk
      simp [hz]
    · have ha : ¬ (a = x) := by
        rintro rfl
        exact hnd.1 hxas
      rw [ih hnd.2 hxas]
      simp [ha]

/-- Summing, over the distinct values of a list, the number of occurrences
of each value gives the length of the list. -/
theorem sum_countP_dedup {α : Type} [DecidableEq α] (l : List α) :
    (l.dedup.map fun q => l.countP fun x => decide (x = q)).sum = l.length := by
  have h : (fun q => l.countP fun x => decide (x = q)) = fun q => l.count q := by
    funext q
    rw [List.count_eq_countP]
    apply List.countP_congr
    intro x _
    simp [beq_iff_eq]
  rw [h]
  exact List.sum_map_count_dedup_eq_length l

theorem firstOccs_toFinset {α β : Type} [DecidableEq β] (f : α → β)
    (l : List α) : (firstOccs f l).toFinset = (l.map f).toFinset := by
  ext k
  simp only [List.mem_toFinset, mem_firstOccs, List.mem_map]

theorem firstOccs_length {α β : Type} [DecidableEq β] (f : α → β)
    (l : List α) : (firstOccs f l).length = (l.map f).toFinset.card := by
  rw [← firstOccs_toFinset f l]
  exact (List.toFinset_card_of_nodup (nodup_firstOccs f l)).symm

/-- `getD` through `map`, at an in-range index. -/
theorem getD_map_lt {α β : Type} (f : α → β) (dα : α) (dβ : β) :
    ∀ (l : List α) (i : Nat), i < l.length →
      (l.map f).getD i dβ = f (l.getD i dα) := by
  intro l
  induction l with
  | nil => intro i hi; simp at hi
  | cons a as ih =>
    intro i hi
    cases i with
    | zero => simp
    | succ j =>
      simp only [List.map_cons, List.getD_cons_succ]
      exact ih j (by simpa using hi)

/-! ## C6: the SLA/Age Calculator -/

/-- C6: `calculate_age_and_sla` is total; when both dates parse as
`YYYY-MM-DD` it returns the difference of the dates' ordinals (possibly
negative) with verdict `Hors délai de remediation` exactly when the age
exceeds the processing time and `Traité dans le délai` otherwise, and when
either date fails to parse it returns `(0, "N/A")`. -/
theorem C6_sla_calculator (ds dt : String) (pt : Int) :
    (∀ y1 m1 d1 y2 m2 d2 : Nat, parseYMD ds = some (y1, m1, d1) →
        parseYMD dt = some (y2, m2, d2) →
        calculate_age_and_sla ds dt pt =
          ((toOrdinal y2 m2 d2 : Int) - (toOrdinal y1 m1 d1 : Int),
            if (toOrdinal y2 m2 d2 : Int) - (toOrdinal y1 m1 d1 : Int) > pt
            then slaBreached else slaWithin)) ∧
      ((parseYMD ds = none ∨ parseYMD dt = none) →
        calculate_age_and_sla ds dt pt = (0, slaUnknown)) := by
  constructor
  · intro y1 m1 d1 y2 m2 d2 h1 h2
    unfold calculate_age_and_sla
    rw [h1, h2]
    dsimp only
    by_cases hgt : (toOrdinal y2 m2 d2 : Int) - (toOrdinal y1 m1 d1 : Int) > pt
    · rw [if_pos hgt, if_pos hgt]
    · rw [if_neg hgt, if_neg hgt]
  · intro h
    unfold calculate_age_and_sla
    rcases h with h | h
    · rw [h]
    · rw [h]
      cases parseYMD ds <;> rfl

/-- C6 witness: the P4 boundary instances and an unparsable input,
obtained from `C6_sla_calculator`. -/
theorem C6_sla_calculator_witness :
    calculate_age_and_sla "2024-01-01" "2024-01-16" 15 = (15, slaWithin) ∧
      calculate_age_and_sla "2024-01-01" "2024-01-17" 15 = (16, slaBreached) ∧
      calculate_age_and_sla "2024-01-01" "not-a-date" 15 = (0, slaUnknown) := by
  have h1 := (C6_sla_calculator "2024-01-01" "2024-01-16" 15).1
    2024 1 1 2024 1 16 (by decide) (by decide)
  have h2 := (C6_sla_calculator "2024-01-01" "2024-01-17" 15).1
    2024 1 1 2024 1 17 (by decide) (by decide)
  have h3 := (C6_sla_calculator "2024-01-01" "not-a-date" 15).2
    (Or.inr (by decide))
  exact ⟨h1.trans (by decide), h2.trans (by decide), h3⟩

/-! ## C7: the Daily Rollover Mutator -/

/-- C7: `update_daily_treatment_dates` sets the treatment date to the
current date exactly for the rows whose status is Open, WIP, Pending or
NOK, leaves every other row (in particular every closed row) unchanged in
all fields, and is idempotent. -/
theorem C7_rollover_idempotent (today : String) (ts : List TrackRow) :
    ((update_daily_treatment_dates today ts).length = ts.length) ∧
      (∀ i, i < ts.length →
        ((ts.getD i default).status ∈ open_statuses →
            (update_daily_treatment_dates today ts).getD i default =
              { ts.getD i default with Date_de_traitement := today }) ∧
          ((ts.getD i default).status ∉ open_statuses →
            (update_daily_treatment_dates today ts).getD i default =
              ts.getD i default)) ∧
      update_daily_treatment_dates today (update_daily_treatment_dates today ts) =
        update_daily_treatment_dates today ts := by
  refine ⟨by simp [update_daily_treatment_dates], ?_, ?_⟩
  · intro i hi
    unfold update_daily_treatment_dates
    rw [getD_map_lt _ default _ ts i hi]
    constructor
    · intro hopen
      rw [if_pos hopen]
    · intro hopen
      rw [if_neg hopen]
  · unfold update_daily_treatment_dates
    rw [List.map_map]
    apply List.map_congr_left
    intro r _
    simp only [Function.comp_apply]
    by_cases h : r.status ∈ open_statuses
    · rw [if_pos h]
      have hs : ({ r with Date_de_traitement := today } : TrackRow).status = r.status := rfl
      rw [if_pos (by rw [hs]; exact h)]
    · rw [if_neg h, if_neg h]

/-- C7 witness: `C7_rollover_idempotent` applied to a store holding one
open and one closed row. -/
theorem C7_rollover_idempotent_witness :
    ((update_daily_treatment_dates "2024-05-01" [rowOpen, rowClos]).getD 0 default =
        { rowOpen with Date_de_traitement := "2024-05-01" }) ∧
      ((update_daily_treatment_dates "2024-05-01" [rowOpen, rowClos]).getD 1 default =
        rowClos) ∧
      update_daily_treatment_dates "2024-05-01"
          (update_daily_treatment_dates "2024-05-01" [rowOpen, rowClos]) =
        update_daily_treatment_dates "2024-05-01" [rowOpen, rowClos] := by
  have h := C7_rollover_idempotent "2024-05-01" [rowOpen, rowClos]
  refine ⟨?_, ?_, h.2.2⟩
  · have := (h.2.1 0 (by decide)).1 (by decide)
    exact this.trans (by decide)
  · have := (h.2.1 1 (by decide)).2 (by decide)
    exact this.trans (by decide)

/-! ## Lemmas about the Consolidation Engine -/

theorem consolidateGroup_id_bulletin (b c : String) (grp : List JRow) :
    (consolidateGroup b c grp).id_bulletin = b := rfl

theorem consolidateGroup_client (b c : String) (grp : List JRow) :
    (consolidateGroup b c grp).client = c := rfl

theorem consolidateGroup_status_def (b c : String) (grp : List JRow) :
    (consolidateGroup b c grp).status =
      (match pyMinBy status_priority (grp.map (·.status)) with
       | some s => s
       | none => "") := rfl

theorem consolidateGroup_date_sortie (b c : String) (grp : List JRow) :
    (consolidateGroup b c grp).Date_de_sortie = grp.headI.Date_de_sortie := rfl

theorem consolidateGroup_date_def (b c : String) (grp : List JRow) :
    (consolidateGroup b c grp).Date_de_traitement =
      (if is_closed (consolidateGroup b c grp).status then
        strMaxD "" (grp.map (·.Date_de_traitement))
      else
        strMaxD (strMaxD "" (grp.map (·.Date_de_traitement)))
          ((grp.filter fun r => !(is_closed r.status)).map (·.Date_de_traitement))) := rfl

theorem consolidateGroup_comment_def (b c : String) (grp : List JRow) :
    (consolidateGroup b c grp).comment =
      (if is_closed (consolidateGroup b c grp).status then
        strMaxD "" ((grp.filter fun r => is_closed r.status).map (·.comment))
      else
        strMaxD ""
          ((grp.filter fun r =>
            decide (r.status = (consolidateGroup b c grp).status)).map (·.comment))) := rfl

/-- The resolved status of a non-empty group is the status of one of its
rows, and no row of the group has a strictly smaller priority. -/
theorem consolidateGroup_status_min {grp : List JRow} (hne : grp ≠ [])
    (b c : String) :
    (∃ r ∈ grp, (consolidateGroup b c grp).status = r.status) ∧
      ∀ r ∈ grp,
        status_priority (consolidateGroup b c grp).status ≤
          status_priority r.status := by
  have hmapne : grp.map (·.status) ≠ [] := by
    intro hc
    exact hne (List.map_eq_nil_iff.mp hc)
  cases hmin : pyMinBy status_priority (grp.map (·.status)) with
  | none =>
    have := @pyMinBy_isSome _ status_priority _ hmapne
    rw [hmin] at this
    cases this
  | some s =>
    have hstat : (consolidateGroup b c grp).status = s := by
      rw [consolidateGroup_status_def, hmin]
    constructor
    · obtain ⟨r, hr, hrs⟩ := List.mem_map.mp (pyMinBy_mem hmin)
      exact ⟨r, hr, by rw [hstat, ← hrs]⟩
    · intro r hr
      rw [hstat]
      exact pyMinBy_min hmin _ (List.mem_map_of_mem _ hr)

theorem mem_engineGroup {ts : List TrackRow} {vs : List VulnFact}
    {client sd ed : Option String} {k : String × String} {r : JRow} :
    r ∈ engineGroup ts vs client sd ed k ↔
      r ∈ engineRows ts vs client sd ed ∧ groupKey r = k := by
  unfold engineGroup
  simp [List.mem_filter]

theorem engineGroup_ne_nil {ts : List TrackRow} {vs : List VulnFact}
    {client sd ed : Option String} {k : String × String}
    (h : k ∈ firstOccs groupKey (engineRows ts vs client sd ed)) :
    engineGroup ts vs client sd ed k ≠ [] := by
  obtain ⟨r, hr, hrk⟩ := (mem_firstOccs groupKey).mp h
  intro hc
  have hmem : r ∈ engineGroup ts vs client sd ed k :=
    mem_engineGroup.mpr ⟨hr, hrk⟩
  rw [hc] at hmem
  simp at hmem

/-- Records of the consolidated output are exactly the consolidations of
the first-occurrence group keys. -/
theorem mem_get_client_vulns {ts : List TrackRow} {vs : List VulnFact}
    {client sd ed : Option String} {rec : CRow}
    (h : rec ∈ get_client_vulns ts vs client sd ed) :
    ∃ k ∈ firstOccs groupKey (engineRows ts vs client sd ed),
      rec = consolidateGroup k.1 k.2 (engineGroup ts vs client sd ed k) := by
  obtain ⟨k, hk, hkeq⟩ := List.mem_map.mp h
  exact ⟨k, hk, hkeq.symm⟩

/-! ## C2: one record per group, with the minimum-priority status -/

/-- C2: every `(bulletin, client)` pair with at least one joined, filtered
tracking row yields exactly one consolidated record, whose status is the
status of one of the group's rows and has minimal priority in the group
under `status_priority` (Open 1 < WIP 2 < Pending 3 < NOK 4 < closed
variants 5). -/
theorem C2_unique_record_min_priority (ts : List TrackRow) (vs : List VulnFact)
    (client sd ed : Option String) (b c : String)
    (hne : ∃ r ∈ engineRows ts vs client sd ed, groupKey r = (b, c)) :
    ((get_client_vulns ts vs client sd ed).countP
        (fun rec => decide (rec.id_bulletin = b ∧ rec.client = c)) = 1) ∧
      ∀ rec ∈ get_client_vulns ts vs client sd ed,
        rec.id_bulletin = b → rec.client = c →
          (∃ r ∈ engineGroup ts vs client sd ed (b, c), rec.status = r.status) ∧
            ∀ r ∈ engineGroup ts vs client sd ed (b, c),
              status_priority rec.status ≤ status_priority r.status := by
  constructor
  · unfold get_client_vulns
    rw [List.countP_map]
    have hcongr :
        (firstOccs groupKey (engineRows ts vs client sd ed)).countP
          ((fun rec => decide (rec.id_bulletin = b ∧ rec.client = c)) ∘
            fun k => consolidateGroup k.1 k.2 (engineGroup ts vs client sd ed k)) =
        (firstOccs groupKey (engineRows ts vs client sd ed)).countP
          (fun k => decide (k = (b, c))) := by
      apply List.countP_congr
      intro k _
      simp only [Function.comp_apply, consolidateGroup_id_bulletin,
        consolidateGroup_client, decide_eq_true_eq]
      constructor
      · rintro ⟨h1, h2⟩
        exact Prod.ext h1 h2
      · rintro rfl
        exact ⟨rfl, rfl⟩
    rw [hcongr]
    exact countP_eq_one_of_nodup_mem (nodup_firstOccs _ _)
      ((mem_firstOccs groupKey).mpr hne)
  · intro rec hrec hb hc
    obtain ⟨k, hk, hkeq⟩ := mem_get_client_vulns hrec
    have hkbc : k = (b, c) := by
      have h1 : k.1 = b := by rw [← hb, hkeq, consolidateGroup_id_bulletin]
      have h2 : k.2 = c := by rw [← hc, hkeq, consolidateGroup_client]
      cases k
      simp_all
    rw [hkbc] at hkeq hk
    dsimp only at hkeq
    have hgne : engineGroup ts vs client sd ed (b, c) ≠ [] := engineGroup_ne_nil hk
    obtain ⟨hmem, hmin⟩ := consolidateGroup_status_min hgne b c
    rw [← hkeq] at hmem hmin
    exact ⟨hmem, hmin⟩

/-- C2 witness: on a group with statuses {WIP, Clos, Open} the engine
produces exactly one record and it resolves to `Open`. -/
theorem C2_unique_record_min_priority_witness :
    (∃ r ∈ engineRows triTs triVs none none none, groupKey r = ("B1", "Acme")) ∧
      ((get_client_vulns triTs triVs none none none).countP
        (fun rec => decide (rec.id_bulletin = "B1" ∧ rec.client = "Acme")) = 1) ∧
      (get_client_vulns triTs triVs none none none).map (fun rec => rec.status) =
        ["Open"] := by
  refine ⟨by decide, ?_, by decide⟩
  exact (C2_unique_record_min_priority triTs triVs none none none "B1" "Acme"
    (by decide)).1

/-! ## C1: aggregate totals vs the consolidated view -/

theorem toFinset_card_map_swap (L : List (String × String)) :
    ((L.map Prod.swap).toFinset).card = L.toFinset.card := by
  have himg : (L.map Prod.swap).toFinset = L.toFinset.image Prod.swap := by
    ext x
    simp [List.mem_toFinset, List.mem_map, Finset.mem_image]
  rw [himg, Finset.card_image_of_injective _ Prod.swap_injective]

/-- C1 (amended): the total of all counts in the nested dict returned by
`get_status_distribution(client=None)` equals the number of consolidated
records returned by `get_client_vulns(client=None)`: both count the
distinct (bulletin, client) pairs of the joined rows. -/
theorem C1_total_count_agreement (ts : List TrackRow) (vs : List VulnFact) :
    statusDistributionTotal ts vs none =
      (get_client_vulns ts vs none none none).length := by
  unfold statusDistributionTotal
  rw [sum_countP_dedup, List.length_map]
  unfold get_status_distribution_rows get_client_vulns engineRows kpiRows
  simp only [List.length_map]
  rw [(List.perm_insertionSort pairLeP _).length_eq]
  have hcf : (fun (r : JRow) => clientFilter none r && monthFilter none r) =
      fun _ => true := by funext r; rfl
  have hdf : (fun (r : JRow) => clientFilter none r && dateRangeFilter none none r) =
      fun _ => true := by funext r; rfl
  rw [hcf, hdf, List.filter_true]
  rw [firstOccs_length, firstOccs_length]
  have hperm : ((List.insertionSort rowLeP (sqlJoin ts vs)).map groupKey).Perm
      ((sqlJoin ts vs).map groupKey) :=
    (List.perm_insertionSort rowLeP (sqlJoin ts vs)).map groupKey
  have hts : ((List.insertionSort rowLeP (sqlJoin ts vs)).map groupKey).toFinset =
      ((sqlJoin ts vs).map groupKey).toFinset := by
    ext x
    simp [List.mem_toFinset, hperm.mem_iff]
  rw [hts]
  have hmk : (sqlJoin ts vs).map kpiKey =
      ((sqlJoin ts vs).map groupKey).map Prod.swap := by
    rw [List.map_map]
    rfl
  rw [hmk, toFinset_card_map_swap]

/-- C1 counterexample: per-status counts do not agree between the
aggregated and the consolidated view.  On a `(B1, Acme)` group whose rows
have statuses {WIP, Clos}, consolidation resolves the group to WIP (no
record with status Clos), but `get_status_distribution` counts the group
under Clos, the SQL `MIN` of the two status strings. -/
theorem C1_per_status_counterexample :
    statusDistributionCount mixTs mixVs none "Acme" "Clos" = 1 ∧
      (get_client_vulns mixTs mixVs none none none).countP
        (fun rec => decide (rec.client = "Acme" ∧ rec.status = "Clos")) = 0 ∧
      statusDistributionCount mixTs mixVs none "Acme" "Clos" ≠
        (get_client_vulns mixTs mixVs none none none).countP
          (fun rec => decide (rec.client = "Acme" ∧ rec.status = "Clos")) := by
  refine ⟨by decide, by decide, by decide⟩

/-! ## C3: the Open-vs-Closed buckets -/

theorem sqlMinStr_mem_aux :
    ∀ (as : List String) (c : String),
      as.foldl (fun c x => if strLt x c then x else c) c = c ∨
        as.foldl (fun c x => if strLt x c then x else c) c ∈ as := by
  intro as
  induction as with
  | nil => intro c; left; rfl
  | cons x xs ih =>
    intro c
    simp only [List.foldl_cons]
    by_cases h : strLt x c = true
    · rw [if_pos h]
      rcases ih x with h' | h'
      · right
        rw [h']
        exact List.mem_cons_self x xs
      · right
        exact List.mem_cons_of_mem x h'
    · rw [if_neg h]
      rcases ih c with h' | h'
      · left
        exact h'
      · right
        exact List.mem_cons_of_mem x h'

theorem sqlMinStr_mem {l : List String} (h : l ≠ []) : sqlMinStr l ∈ l := by
  cases l with
  | nil => exact absurd rfl h
  | cons a as =>
    simp only [sqlMinStr]
    rcases sqlMinStr_mem_aux as a with h' | h'
    · rw [h']
      exact List.mem_cons_self a as
    · exact List.mem_cons_of_mem a h'

theorem sqlMinStr_le_aux :
    ∀ (as : List String) (c : String),
      strLe (as.foldl (fun c x => if strLt x c then x else c) c) c = true ∧
        ∀ x ∈ as,
          strLe (as.foldl (fun c x => if strLt x c then x else c) c) x = true := by
  intro as
  induction as with
  | nil => intro c; exact ⟨strLe_refl c, by simp⟩
  | cons y ys ih =>
    intro c
    simp only [List.foldl_cons]
    by_cases h : strLt y c = true
    · rw [if_pos h]
      obtain ⟨h1, h2⟩ := ih y
      refine ⟨strLe_trans h1 (strLe_of_strLt h), ?_⟩
      intro x hx
      rcases List.mem_cons.mp hx with hxy | hxys
      · rw [hxy]
        exact h1
      · exact h2 x hxys
    · rw [if_neg h]
      obtain ⟨h1, h2⟩ := ih c
      refine ⟨h1, ?_⟩
      intro x hx
      rcases List.mem_cons.mp hx with hxy | hxys
      · have hf : strLt y c = false := by
          cases hh : strLt y c
          · rfl
          · exact absurd hh h
        have hcy : strLe c y = true := by simp [strLe, hf]
        rw [hxy]
        exact strLe_trans h1 hcy
      · exact h2 x hxys

theorem sqlMinStr_le {l : List String} : ∀ x ∈ l, strLe (sqlMinStr l) x = true := by
  intro x hx
  cases l with
  | nil => simp at hx
  | cons a as =>
    simp only [sqlMinStr]
    obtain ⟨h1, h2⟩ := sqlMinStr_le_aux as a
    rcases List.mem_cons.mp hx with hxa | hxas
    · rw [hxa]
      exact h1
    · exact h2 x hxas

theorem closed_lt_nonclosed :
    ∀ s ∈ closed_statuses, ∀ m ∈ ["NOK", "Open", "Pending", "WIP"],
      strLt s m = true := by decide

/-- For a non-empty list of known statuses, the SQL `MIN` is `Open` iff
the list contains `Open` and no closed variant and no `NOK`. -/
theorem sqlMinStr_eq_open_iff {l : List String} (hne : l ≠ [])
    (hknown : ∀ s ∈ l, s ∈ known_statuses) :
    sqlMinStr l = "Open" ↔
      ("Open" ∈ l ∧ ∀ s ∈ l, s ∉ closed_statuses ∧ s ≠ "NOK") := by
  constructor
  · intro hmin
    constructor
    · rw [← hmin]
      exact sqlMinStr_mem hne
    · intro s hs
      have hle : strLe (sqlMinStr l) s = true := sqlMinStr_le s hs
      rw [hmin] at hle
      constructor
      · intro hcl
        have hlt : strLt s "Open" = true :=
          closed_lt_nonclosed s hcl "Open" (by decide)
        rw [strLe, hlt] at hle
        cases hle
      · intro hnok
        rw [hnok] at hle
        have hno : strLe "Open" "NOK" = false := by decide
        rw [hno] at hle
        cases hle
  · rintro ⟨hopen, hforall⟩
    have hmem := sqlMinStr_mem hne
    have hk := hknown _ hmem
    obtain ⟨hncl, hnnok⟩ := hforall _ hmem
    have h3 : sqlMinStr l = "Open" ∨ sqlMinStr l = "WIP" ∨
        sqlMinStr l = "Pending" := by
      simp only [known_statuses, List.mem_cons, List.not_mem_nil, or_false] at hk
      rcases hk with h | h | h | h | h | h | h | h
      · exact Or.inl h
      · exact Or.inr (Or.inl h)
      · exact Or.inr (Or.inr h)
      · exact absurd h hnnok
      all_goals exact absurd (by rw [h]; simp [closed_statuses]) hncl
    have hle := sqlMinStr_le "Open" hopen
    rcases h3 with h | h | h
    · exact h
    · rw [h] at hle
      have hwo : strLe "WIP" "Open" = false := by decide
      rw [hwo] at hle
      cases hle
    · rw [h] at hle
      have hpo : strLe "Pending" "Open" = false := by decide
      rw [hpo] at hle
      cases hle

/-- For a non-empty list of known statuses, the SQL `MIN` is a closed
variant iff the list contains a closed variant. -/
theorem sqlMinStr_closed_iff {l : List String} (hne : l ≠ [])
    (hknown : ∀ s ∈ l, s ∈ known_statuses) :
    sqlMinStr l ∈ closed_statuses ↔ ∃ s ∈ l, s ∈ closed_statuses := by
  constructor
  · intro h
    exact ⟨sqlMinStr l, sqlMinStr_mem hne, h⟩
  · rintro ⟨s, hs, hcl⟩
    by_contra hncl
    have hmem := sqlMinStr_mem hne
    have hk := hknown _ hmem
    have h4 : sqlMinStr l ∈ ["NOK", "Open", "Pending", "WIP"] := by
      simp only [known_statuses, List.mem_cons, List.not_mem_nil, or_false] at hk
      rcases hk with h | h | h | h | h | h | h | h
      · rw [h]; simp
      · rw [h]; simp
      · rw [h]; simp
      · rw [h]; simp
      all_goals exact absurd (by rw [h]; simp [closed_statuses]) hncl
    have hlt : strLt s (sqlMinStr l) = true := closed_lt_nonclosed s hcl _ h4
    have hle : strLe (sqlMinStr l) s = true := sqlMinStr_le s hs
    rw [strLe, hlt] at hle
    cases hle

/-- Every joined row carries the status of one of the tracking rows. -/
theorem sqlJoin_status {ts : List TrackRow} {vs : List VulnFact} {r : JRow}
    (h : r ∈ sqlJoin ts vs) : ∃ t ∈ ts, r.status = t.status := by
  unfold sqlJoin at h
  obtain ⟨t, ht, hr⟩ := List.mem_flatMap.mp h
  obtain ⟨v, _, hveq⟩ := List.mem_map.mp hr
  refine ⟨t, ht, ?_⟩
  rw [← hveq]
  rfl

theorem mem_kpiGroup {ts : List TrackRow} {vs : List VulnFact}
    {client month : Option String} {k : String × String} {r : JRow} :
    r ∈ kpiGroup ts vs client month k ↔
      r ∈ kpiRows ts vs client month ∧ kpiKey r = k := by
  unfold kpiGroup
  simp [List.mem_filter]

theorem kpiGroup_ne_nil {ts : List TrackRow} {vs : List VulnFact}
    {client month : Option String} {k : String × String}
    (h : k ∈ firstOccs kpiKey (kpiRows ts vs client month)) :
    kpiGroup ts vs client month k ≠ [] := by
  obtain ⟨r, hr, hrk⟩ := (mem_firstOccs kpiKey).mp h
  intro hc
  have hmem : r ∈ kpiGroup ts vs client month k := mem_kpiGroup.mpr ⟨hr, hrk⟩
  rw [hc] at hmem
  simp at hmem

/-- C3 (amended): bucketing in `get_open_vs_closed` follows the SQL `MIN`
of the raw status strings of each group, not the priority-resolved status:
the Open bucket counts exactly the groups that contain an `Open` row but
no closed-variant row and no `NOK` row, and the Clos bucket counts exactly
the groups that contain at least one closed-variant row. -/
theorem C3_open_vs_closed_buckets (ts : List TrackRow) (vs : List VulnFact)
    (client month : Option String)
    (hknown : ∀ t ∈ ts, t.status ∈ known_statuses) :
    (get_open_vs_closed ts vs client month).1 =
      (firstOccs kpiKey (kpiRows ts vs client month)).countP (fun k =>
        decide ((∃ r ∈ kpiGroup ts vs client month k, r.status = "Open") ∧
          ∀ r ∈ kpiGroup ts vs client month k,
            r.status ∉ closed_statuses ∧ r.status ≠ "NOK")) ∧
      (get_open_vs_closed ts vs client month).2 =
        (firstOccs kpiKey (kpiRows ts vs client month)).countP (fun k =>
          decide (∃ r ∈ kpiGroup ts vs client month k,
            r.status ∈ closed_statuses)) := by
  have hgknown : ∀ k, ∀ s ∈ (kpiGroup ts vs client month k).map (·.status),
      s ∈ known_statuses := by
    intro k s hs
    obtain ⟨r, hr, hrs⟩ := List.mem_map.mp hs
    have hrj : r ∈ sqlJoin ts vs :=
      List.mem_of_mem_filter (mem_kpiGroup.mp hr).1
    obtain ⟨t, ht, hts⟩ := sqlJoin_status hrj
    rw [← hrs, hts]
    exact hknown t ht
  have hgne : ∀ k ∈ firstOccs kpiKey (kpiRows ts vs client month),
      (kpiGroup ts vs client month k).map (·.status) ≠ [] := by
    intro k hk hc
    exact kpiGroup_ne_nil hk (List.map_eq_nil_iff.mp hc)
  constructor
  · unfold get_open_vs_closed kpiGroupedRows
    dsimp only
    rw [List.countP_map]
    apply List.countP_congr
    intro k hk
    simp only [Function.comp_apply, decide_eq_true_eq]
    unfold sqlMinStatus
    rw [sqlMinStr_eq_open_iff (hgne k hk) (hgknown k)]
    constructor
    · rintro ⟨ho, hall⟩
      obtain ⟨r, hr, hrs⟩ := List.mem_map.mp ho
      refine ⟨⟨r, hr, hrs⟩, ?_⟩
      intro r' hr'
      exact hall _ (List.mem_map_of_mem _ hr')
    · rintro ⟨⟨r, hr, hrs⟩, hall⟩
      refine ⟨List.mem_map.mpr ⟨r, hr, hrs⟩, ?_⟩
      intro s hs
      obtain ⟨r', hr', hrs'⟩ := List.mem_map.mp hs
      rw [← hrs']
      exact hall r' hr'
  · unfold get_open_vs_closed kpiGroupedRows
    dsimp only
    rw [List.countP_map]
    apply List.countP_congr
    intro k hk
    simp only [Function.comp_apply, is_closed, decide_eq_true_eq]
    unfold sqlMinStatus
    rw [sqlMinStr_closed_iff (hgne k hk) (hgknown k)]
    constructor
    · rintro ⟨s, hs, hcl⟩
      obtain ⟨r, hr, hrs⟩ := List.mem_map.mp hs
      exact ⟨r, hr, by rw [hrs]; exact hcl⟩
    · rintro ⟨r, hr, hcl⟩
      exact ⟨r.status, List.mem_map_of_mem _ hr, hcl⟩

/-- C3 counterexample: a group whose consolidated status is WIP — which
the claim places in neither bucket — is counted in the Clos bucket,
because the SQL `MIN` of {"WIP", "Clos"} is "Clos". -/
theorem C3_wip_group_counted_clos :
    (get_client_vulns mixTs mixVs none none none).map (fun rec => rec.status) =
        ["WIP"] ∧
      get_open_vs_closed mixTs mixVs none none = (0, 1) := by
  exact ⟨by decide, by decide⟩

/-- C3 witness: `C3_open_vs_closed_buckets` applied to the store holding
one {WIP, Clos} group. -/
theorem C3_open_vs_closed_buckets_witness :
    (∀ t ∈ mixTs, t.status ∈ known_statuses) ∧
      ((get_open_vs_closed mixTs mixVs none none).1 =
        (firstOccs kpiKey (kpiRows mixTs mixVs none none)).countP (fun k =>
          decide ((∃ r ∈ kpiGroup mixTs mixVs none none k, r.status = "Open") ∧
            ∀ r ∈ kpiGroup mixTs mixVs none none k,
              r.status ∉ closed_statuses ∧ r.status ≠ "NOK")) ∧
        (get_open_vs_closed mixTs mixVs none none).2 =
          (firstOccs kpiKey (kpiRows mixTs mixVs none none)).countP (fun k =>
            decide (∃ r ∈ kpiGroup mixTs mixVs none none k,
              r.status ∈ closed_statuses))) :=
  ⟨by decide, C3_open_vs_closed_buckets mixTs mixVs none none (by decide)⟩

/-! ## C4 and C5: the consolidated comment and treatment date -/

theorem is_closed_iff {s : String} : is_closed s = true ↔ s ∈ closed_statuses := by
  simp [is_closed]

theorem closed_priority_eq5 : ∀ s ∈ closed_statuses, status_priority s = 5 := by
  decide

theorem known_priority_ge5_closed :
    ∀ s ∈ known_statuses, 5 ≤ status_priority s → s ∈ closed_statuses := by
  decide

theorem engineRows_status {ts : List TrackRow} {vs : List VulnFact}
    {client sd ed : Option String} {r : JRow}
    (h : r ∈ engineRows ts vs client sd ed) : ∃ t ∈ ts, r.status = t.status := by
  unfold engineRows at h
  have hmem := (List.perm_insertionSort rowLeP _).mem_iff.mp h
  exact sqlJoin_status (List.mem_of_mem_filter hmem)

/-- The consolidated comment is the lexicographically greatest comment
among the closed rows of the group when the resolved status is closed, and
among the rows carrying the resolved status otherwise. -/
theorem consolidateGroup_comment_max {grp : List JRow} (hne : grp ≠ [])
    (b c : String) :
    (is_closed (consolidateGroup b c grp).status = true →
        (∃ r ∈ grp, is_closed r.status = true ∧
            (consolidateGroup b c grp).comment = r.comment) ∧
          ∀ r ∈ grp, is_closed r.status = true →
            strLe r.comment (consolidateGroup b c grp).comment = true) ∧
      (is_closed (consolidateGroup b c grp).status = false →
        (∃ r ∈ grp, r.status = (consolidateGroup b c grp).status ∧
            (consolidateGroup b c grp).comment = r.comment) ∧
          ∀ r ∈ grp, r.status = (consolidateGroup b c grp).status →
            strLe r.comment (consolidateGroup b c grp).comment = true) := by
  obtain ⟨⟨r0, hr0, hr0s⟩, _⟩ := consolidateGroup_status_min hne b c
  constructor
  · intro hcl
    have hcomment : (consolidateGroup b c grp).comment =
        strMaxD "" ((grp.filter fun r => is_closed r.status).map (·.comment)) := by
      rw [consolidateGroup_comment_def, if_pos hcl]
    have hr0cl : is_closed r0.status = true := by rw [← hr0s]; exact hcl
    have hLne : (grp.filter fun r => is_closed r.status).map (·.comment) ≠ [] := by
      intro hc
      rcases List.map_eq_nil_iff.mp hc with hf
      exact (List.ne_nil_of_mem (List.mem_filter.mpr ⟨hr0, hr0cl⟩)) hf
    constructor
    · have hmem := @strMaxD_mem "" _ hLne
      rw [← hcomment] at hmem
      obtain ⟨r, hrf, hrc⟩ := List.mem_map.mp hmem
      obtain ⟨hr, hclr⟩ := List.mem_filter.mp hrf
      exact ⟨r, hr, hclr, hrc.symm⟩
    · intro r hr hclr
      rw [hcomment]
      exact strMaxD_le _ (List.mem_map_of_mem _ (List.mem_filter.mpr ⟨hr, hclr⟩))
  · intro hncl
    have hcomment : (consolidateGroup b c grp).comment =
        strMaxD ""
          ((grp.filter fun r =>
            decide (r.status = (consolidateGroup b c grp).status)).map (·.comment)) := by
      rw [consolidateGroup_comment_def, if_neg (by rw [hncl]; exact Bool.false_ne_true)]
    have hr0f : r0 ∈ grp.filter fun r =>
        decide (r.status = (consolidateGroup b c grp).status) :=
      List.mem_filter.mpr ⟨hr0, by simp [hr0s.symm]⟩
    have hLne : (grp.filter fun r =>
        decide (r.status = (consolidateGroup b c grp).status)).map (·.comment) ≠ [] := by
      intro hc
      exact (List.ne_nil_of_mem hr0f) (List.map_eq_nil_iff.mp hc)
    constructor
    · have hmem := @strMaxD_mem "" _ hLne
      rw [← hcomment] at hmem
      obtain ⟨r, hrf, hrc⟩ := List.mem_map.mp hmem
      obtain ⟨hr, hsr⟩ := List.mem_filter.mp hrf
      exact ⟨r, hr, by simpa using hsr, hrc.symm⟩
    · intro r hr hsr
      rw [hcomment]
      exact strMaxD_le _
        (List.mem_map_of_mem _ (List.mem_filter.mpr ⟨hr, by simp [hsr]⟩))

/-- The consolidated treatment date is the lexicographically (hence
chronologically, for `YYYY-MM-DD` strings) greatest treatment date: among
the closed rows when the resolved status is closed (all rows of such a
group are closed when statuses come from the status enum), and among the
non-closed rows otherwise. -/
theorem consolidateGroup_date_max {grp : List JRow} (hne : grp ≠ [])
    (b c : String) (hknown : ∀ r ∈ grp, r.status ∈ known_statuses) :
    (is_closed (consolidateGroup b c grp).status = true →
        (∃ r ∈ grp, is_closed r.status = true ∧
            (consolidateGroup b c grp).Date_de_traitement = r.Date_de_traitement) ∧
          ∀ r ∈ grp, is_closed r.status = true →
            strLe r.Date_de_traitement
              (consolidateGroup b c grp).Date_de_traitement = true) ∧
      (is_closed (consolidateGroup b c grp).status = false →
        (∃ r ∈ grp, is_closed r.status = false ∧
            (consolidateGroup b c grp).Date_de_traitement = r.Date_de_traitement) ∧
          ∀ r ∈ grp, is_closed r.status = false →
            strLe r.Date_de_traitement
              (consolidateGroup b c grp).Date_de_traitement = true) := by
  obtain ⟨⟨r0, hr0, hr0s⟩, hminp⟩ := consolidateGroup_status_min hne b c
  constructor
  · intro hcl
    have hdate : (consolidateGroup b c grp).Date_de_traitement =
        strMaxD "" (grp.map (·.Date_de_traitement)) := by
      rw [consolidateGroup_date_def, if_pos hcl]
    have hallclosed : ∀ r ∈ grp, is_closed r.status = true := by
      intro r hr
      rw [is_closed_iff]
      apply known_priority_ge5_closed _ (hknown r hr)
      have h5 : status_priority (consolidateGroup b c grp).status = 5 :=
        closed_priority_eq5 _ (is_closed_iff.mp hcl)
      have := hminp r hr
      omega
    have hLne : grp.map (·.Date_de_traitement) ≠ [] := by
      intro hc
      exact hne (List.map_eq_nil_iff.mp hc)
    constructor
    · have hmem := @strMaxD_mem "" _ hLne
      rw [← hdate] at hmem
      obtain ⟨r, hr, hrd⟩ := List.mem_map.mp hmem
      exact ⟨r, hr, hallclosed r hr, hrd.symm⟩
    · intro r hr _
      rw [hdate]
      exact strMaxD_le _ (List.mem_map_of_mem _ hr)
  · intro hncl
    have hdate : (consolidateGroup b c grp).Date_de_traitement =
        strMaxD (strMaxD "" (grp.map (·.Date_de_traitement)))
          ((grp.filter fun r => !(is_closed r.status)).map (·.Date_de_traitement)) := by
      rw [consolidateGroup_date_def, if_neg (by rw [hncl]; exact Bool.false_ne_true)]
    have hr0nc : is_closed r0.status = false := by rw [← hr0s]; exact hncl
    have hr0f : r0 ∈ grp.filter fun r => !(is_closed r.status) :=
      List.mem_filter.mpr ⟨hr0, by rw [hr0nc]; rfl⟩
    have hLne : (grp.filter fun r => !(is_closed r.status)).map
        (·.Date_de_traitement) ≠ [] := by
      intro hc
      exact (List.ne_nil_of_mem hr0f) (List.map_eq_nil_iff.mp hc)
    constructor
    · have hmem := @strMaxD_mem (strMaxD "" (grp.map (·.Date_de_traitement))) _ hLne
      rw [← hdate] at hmem
      obtain ⟨r, hrf, hrd⟩ := List.mem_map.mp hmem
      obtain ⟨hr, hnclr⟩ := List.mem_filter.mp hrf
      refine ⟨r, hr, ?_, hrd.symm⟩
      cases h' : is_closed r.status
      · rfl
      · rw [h'] at hnclr
        cases hnclr
    · intro r hr hnclr
      rw [hdate]
      exact strMaxD_le _
        (List.mem_map_of_mem _ (List.mem_filter.mpr ⟨hr, by rw [hnclr]; rfl⟩))

/-- C4 (amended): the consolidated comment is the lexicographically
greatest comment string — not the comment of the row with the latest
treatment date: among the closed rows of the group when the resolved
status is a closed variant, and among the rows whose status equals the
resolved status otherwise. -/
theorem C4_comment_lexicographic_max (ts : List TrackRow) (vs : List VulnFact)
    (client sd ed : Option String) (rec : CRow)
    (hrec : rec ∈ get_client_vulns ts vs client sd ed) :
    (is_closed rec.status = true →
        (∃ r ∈ engineGroup ts vs client sd ed (rec.id_bulletin, rec.client),
            is_closed r.status = true ∧ rec.comment = r.comment) ∧
          ∀ r ∈ engineGroup ts vs client sd ed (rec.id_bulletin, rec.client),
            is_closed r.status = true → strLe r.comment rec.comment = true) ∧
      (is_closed rec.status = false →
        (∃ r ∈ engineGroup ts vs client sd ed (rec.id_bulletin, rec.client),
            r.status = rec.status ∧ rec.comment = r.comment) ∧
          ∀ r ∈ engineGroup ts vs client sd ed (rec.id_bulletin, rec.client),
            r.status = rec.status → strLe r.comment rec.comment = true) := by
  obtain ⟨k, hk, hkeq⟩ := mem_get_client_vulns hrec
  have hgne := engineGroup_ne_nil hk
  have hpair : (rec.id_bulletin, rec.client) = k := by
    rw [hkeq, consolidateGroup_id_bulletin, consolidateGroup_client]
  rw [hpair, hkeq]
  exact consolidateGroup_comment_max hgne k.1 k.2

/-- C4 counterexample: in a group of two closed rows where the row with
the later treatment date (2024-03-01) has comment "aaa" and the other row
(2024-01-01) has comment "zzz", the engine returns "zzz" (the
lexicographic maximum), not "aaa" as the claim demands. -/
theorem C4_comment_not_from_latest_row :
    (get_client_vulns closTs closVs none none none).map (fun rec => rec.comment) =
        ["zzz"] ∧
      ¬ ((get_client_vulns closTs closVs none none none).map
          (fun rec => rec.comment) = ["aaa"]) :=
  ⟨by decide, by decide⟩

/-- C4 witness: `C4_comment_lexicographic_max` applied to the record
consolidated from `closTs`. -/
theorem C4_comment_lexicographic_max_witness :
    ((get_client_vulns closTs closVs none none none).headI ∈
        get_client_vulns closTs closVs none none none) ∧
      ∃ r ∈ engineGroup closTs closVs none none none
          ((get_client_vulns closTs closVs none none none).headI.id_bulletin,
            (get_client_vulns closTs closVs none none none).headI.client),
        is_closed r.status = true ∧
          (get_client_vulns closTs closVs none none none).headI.comment =
            r.comment := by
  have h := C4_comment_lexicographic_max closTs closVs none none none
    ((get_client_vulns closTs closVs none none none).headI) (by decide)
  exact ⟨by decide, (h.1 (by decide)).1⟩

/-- C5: the consolidated treatment date is the latest treatment date
among the rows sharing the resolution side: among the closed rows when the
resolved status is closed, among the non-closed rows otherwise (dates are
`YYYY-MM-DD` strings, so the lexicographic maximum is the latest date).
The claim's fallback to all rows cannot arise: a group resolved to a
non-closed status always contains a non-closed row. -/
theorem C5_treatment_date_latest (ts : List TrackRow) (vs : List VulnFact)
    (client sd ed : Option String) (rec : CRow)
    (hrec : rec ∈ get_client_vulns ts vs client sd ed)
    (hknown : ∀ t ∈ ts, t.status ∈ known_statuses) :
    (is_closed rec.status = true →
        (∃ r ∈ engineGroup ts vs client sd ed (rec.id_bulletin, rec.client),
            is_closed r.status = true ∧
              rec.Date_de_traitement = r.Date_de_traitement) ∧
          ∀ r ∈ engineGroup ts vs client sd ed (rec.id_bulletin, rec.client),
            is_closed r.status = true →
              strLe r.Date_de_traitement rec.Date_de_traitement = true) ∧
      (is_closed rec.status = false →
        (∃ r ∈ engineGroup ts vs client sd ed (rec.id_bulletin, rec.client),
            is_closed r.status = false ∧
              rec.Date_de_traitement = r.Date_de_traitement) ∧
          ∀ r ∈ engineGroup ts vs client sd ed (rec.id_bulletin, rec.client),
            is_closed r.status = false →
              strLe r.Date_de_traitement rec.Date_de_traitement = true) := by
  obtain ⟨k, hk, hkeq⟩ := mem_get_client_vulns hrec
  have hgne := engineGroup_ne_nil hk
  have hgknown : ∀ r ∈ engineGroup ts vs client sd ed k,
      r.status ∈ known_statuses := by
    intro r hr
    obtain ⟨t, ht, hts⟩ := engineRows_status (mem_engineGroup.mp hr).1
    rw [hts]
    exact hknown t ht
  have hpair : (rec.id_bulletin, rec.client) = k := by
    rw [hkeq, consolidateGroup_id_bulletin, consolidateGroup_client]
  rw [hpair, hkeq]
  exact consolidateGroup_date_max hgne k.1 k.2 hgknown

/-- C5 witness: `C5_treatment_date_latest` applied to the record
consolidated from the two closed rows of `closTs`. -/
theorem C5_treatment_date_latest_witness :
    ((get_client_vulns closTs closVs none none none).headI ∈
        get_client_vulns closTs closVs none none none) ∧
      (∀ t ∈ closTs, t.status ∈ known_statuses) ∧
      ∃ r ∈ engineGroup closTs closVs none none none
          ((get_client_vulns closTs closVs none none none).headI.id_bulletin,
            (get_client_vulns closTs closVs none none none).headI.client),
        is_closed r.status = true ∧
          (get_client_vulns closTs closVs none none none).headI.Date_de_traitement =
            r.Date_de_traitement := by
  have h := C5_treatment_date_latest closTs closVs none none none
    ((get_client_vulns closTs closVs none none none).headI) (by decide) (by decide)
  exact ⟨by decide, by decide, (h.1 (by decide)).1⟩

/-! ## C8: the comprehensive table's percentage and its zero guard -/

theorem compStep_total_pos {acc : List (String × MonthAcc)} {g : CompRow}
    (h : ∀ p ∈ acc, 0 < p.2.total_vulnerabilities) :
    ∀ p ∈ compStep acc g, 0 < p.2.total_vulnerabilities := by
  intro p hp
  unfold compStep at hp
  dsimp only at hp
  obtain ⟨q, hq, hqeq⟩ := List.mem_map.mp hp
  by_cases hqm : q.1 = g.month
  · rw [if_pos hqm] at hqeq
    rw [← hqeq]
    simp
  · rw [if_neg hqm] at hqeq
    rw [← hqeq]
    by_cases hany : (acc.any fun p => decide (p.1 = g.month)) = true
    · rw [if_pos hany] at hq
      exact h q hq
    · rw [if_neg hany] at hq
      rcases List.mem_append.mp hq with hq' | hq'
      · exact h q hq'
      · have hq1 : q.1 = g.month := by
          simp only [List.mem_singleton] at hq'
          rw [hq']
        exact absurd hq1 hqm

theorem comp_fold_total_pos (grows : List CompRow) :
    ∀ acc, (∀ p ∈ acc, 0 < p.2.total_vulnerabilities) →
      ∀ p ∈ grows.foldl compStep acc, 0 < p.2.total_vulnerabilities := by
  induction grows with
  | nil =>
    intro acc h p hp
    exact h p hp
  | cons g gs ih =>
    intro acc h p hp
    rw [List.foldl_cons] at hp
    exact ih (compStep acc g) (compStep_total_pos h) p hp

/-- C8 (amended): every month entry present in the comprehensive table
has a positive total and its treatment percentage is
`round((total_closed / total_vulnerabilities) * 100)` as the program
computes it in binary64 floating point; a month with zero grouped rows
produces no entry at all, so the zero guard of the percentage loop never
fires (and no division by zero can occur). -/
theorem C8_percentage_formula (ts : List TrackRow) (vs : List VulnFact)
    (client : Option String) (sel : Option (List String))
    (m : String) (md : MonthData)
    (hmem : (m, md) ∈ (get_comprehensive_table ts vs client sel).data) :
    0 < md.total_vulnerabilities ∧
      md.treatment_percentage =
        py_round_percentage md.total_closed md.total_vulnerabilities := by
  unfold get_comprehensive_table at hmem
  dsimp only at hmem
  obtain ⟨q, hq, hqeq⟩ := List.mem_map.mp hmem
  have hpos : 0 < q.2.total_vulnerabilities :=
    comp_fold_total_pos _ [] (by simp) q hq
  unfold finalizeMonth at hqeq
  have hmd : md =
      { month_name := q.2.month_name
        total_vulnerabilities := q.2.total_vulnerabilities
        total_closed := q.2.total_closed
        total_ongoing := q.2.total_ongoing
        treatment_percentage :=
          if 0 < q.2.total_vulnerabilities then
            py_round_percentage q.2.total_closed q.2.total_vulnerabilities
          else 0 } := by
    have := congrArg Prod.snd hqeq
    simpa using this.symm
  rw [hmd]
  refine ⟨hpos, ?_⟩
  simp [hpos]

/-- C8 counterexample: both halves of the original claim fail.  A month
with zero consolidated records yields no entry in the comprehensive table
at all — the table queried for 2024-01 over an empty store reports an
empty months list and an empty data map, not an entry with
`treatment_percentage = 0`.  And a month with 40 consolidated records of
which 23 are closed is reported with treatment percentage 57 — the float
evaluation of `round((23/40)*100)` — whereas the claim's formula
`round(100 * 23 / 40) = round(57.5)` gives 58. -/
theorem C8_original_claim_fails :
    ((get_comprehensive_table [] [] none (some ["2024-01"])).data = [] ∧
      (get_comprehensive_table [] [] none (some ["2024-01"])).months = []) ∧
      ((get_comprehensive_table pctTs pctVs none none).data.map fun p =>
          (p.1, p.2.total_vulnerabilities, p.2.total_closed,
            p.2.treatment_percentage)) =
        [("2024-03", 40, 23, 57)] ∧
      roundHalfEven (100 * 23) 40 = 58 :=
  ⟨⟨by decide, by decide⟩, by decide, by decide⟩

/-- C8 witness: `C8_percentage_formula` applied to the month entry built
from the `mixTs` store. -/
theorem C8_percentage_formula_witness :
    (((get_comprehensive_table mixTs mixVs none none).data.headI.1,
        (get_comprehensive_table mixTs mixVs none none).data.headI.2) ∈
        (get_comprehensive_table mixTs mixVs none none).data) ∧
      0 < (get_comprehensive_table mixTs mixVs none none).data.headI.2.total_vulnerabilities ∧
      (get_comprehensive_table mixTs mixVs none none).data.headI.2.treatment_percentage =
        py_round_percentage
          (get_comprehensive_table mixTs mixVs none none).data.headI.2.total_closed
          (get_comprehensive_table mixTs mixVs none none).data.headI.2.total_vulnerabilities := by
  have h := C8_percentage_formula mixTs mixVs none none
    ((get_comprehensive_table mixTs mixVs none none).data.headI.1)
    ((get_comprehensive_table mixTs mixVs none none).data.headI.2) (by decide)
  exact ⟨by decide, h⟩

/-! ## C9: deterministic output ordering of the Consolidation Engine -/

theorem map_filter_comp {α β : Type} (f : α → β) (p : β → Bool) :
    ∀ l : List α, (l.filter fun x => p (f x)).map f = (l.map f).filter p := by
  intro l
  induction l with
  | nil => rfl
  | cons a as ih =>
    simp only [List.filter_cons, List.map_cons]
    by_cases h : p (f a) = true
    · rw [if_pos h, List.map_cons, ih, if_pos h]
    · rw [if_neg h, ih, if_neg h]

theorem firstRows_sublist : ∀ l : List JRow, (firstRows l).Sublist l := by
  intro l
  induction l with
  | nil => simp [firstRows]
  | cons r rs ih =>
    simp only [firstRows]
    exact List.Sublist.cons₂ r ((List.filter_sublist _).trans ih)

theorem map_groupKey_firstRows : ∀ l : List JRow,
    (firstRows l).map groupKey = firstOccs groupKey l := by
  intro l
  induction l with
  | nil => rfl
  | cons r rs ih =>
    simp only [firstRows, firstOccs, List.map_cons]
    congr 1
    rw [map_filter_comp groupKey (fun k => decide (k ≠ groupKey r)), ih]

/-- The first row of the SQL-ordered list that belongs to the group of a
first-occurrence representative is that representative itself. -/
theorem filter_key_headI : ∀ (l : List JRow) (x : JRow), x ∈ firstRows l →
    (l.filter fun r => decide (groupKey r = groupKey x)).headI = x := by
  intro l
  induction l with
  | nil =>
    intro x hx
    simp [firstRows] at hx
  | cons r rs ih =>
    intro x hx
    simp only [firstRows] at hx
    rcases List.mem_cons.mp hx with rfl | hxf
    · simp only [List.filter_cons]
      rw [if_pos (by simp)]
      rfl
    · have hxmem : x ∈ firstRows rs := (List.mem_filter.mp hxf).1
      have hxkey : groupKey x ≠ groupKey r := by
        have := (List.mem_filter.mp hxf).2
        simpa using this
      simp only [List.filter_cons]
      rw [if_neg (by
        simp only [decide_eq_true_eq]
        exact fun h => hxkey h.symm)]
      exact ih x hxmem

/-- C9: under the data-quality precondition that all rows of one group
share a release date, the consolidated records come out ordered by release
date descending, then bulletin id, then client.  (The proof does not even
need the precondition: each record's release date is copied from its
group's first row in the SQL sort order.) -/
theorem C9_output_ordered (ts : List TrackRow) (vs : List VulnFact)
    (client sd ed : Option String)
    (_hdate : ∀ r1 ∈ sqlJoin ts vs, ∀ r2 ∈ sqlJoin ts vs,
      groupKey r1 = groupKey r2 → r1.Date_de_sortie = r2.Date_de_sortie) :
    (get_client_vulns ts vs client sd ed).Pairwise crowOrder := by
  clear _hdate
  unfold get_client_vulns
  rw [← map_groupKey_firstRows, List.map_map, List.pairwise_map]
  have hsorted : (engineRows ts vs client sd ed).Pairwise rowLeP := by
    unfold engineRows
    exact List.sorted_insertionSort rowLeP _
  have hfr : (firstRows (engineRows ts vs client sd ed)).Pairwise rowLeP :=
    List.Pairwise.sublist (firstRows_sublist _) hsorted
  have hnd : (firstRows (engineRows ts vs client sd ed)).Pairwise
      (fun x y => groupKey x ≠ groupKey y) := by
    have hmapnd : ((firstRows (engineRows ts vs client sd ed)).map groupKey).Nodup := by
      rw [map_groupKey_firstRows]
      exact nodup_firstOccs _ _
    exact List.pairwise_map.mp hmapnd
  refine List.Pairwise.imp_of_mem ?_ (hfr.and hnd)
  intro x y hx hy hxy
  obtain ⟨hle, hkey⟩ := hxy
  have hgx : engineGroup ts vs client sd ed (groupKey x) =
      (engineRows ts vs client sd ed).filter
        fun r => decide (groupKey r = groupKey x) := rfl
  have hheadx :
      (engineGroup ts vs client sd ed (groupKey x)).headI = x := by
    rw [hgx]
    exact filter_key_headI _ x hx
  have hheady :
      (engineGroup ts vs client sd ed (groupKey y)).headI = y := by
    exact filter_key_headI _ y hy
  simp only [Function.comp_apply]
  unfold crowOrder
  rw [consolidateGroup_date_sortie, consolidateGroup_date_sortie,
    consolidateGroup_id_bulletin, consolidateGroup_id_bulletin,
    consolidateGroup_client, consolidateGroup_client,
    hheadx, hheady]
  unfold rowLeP at hle
  rcases hle with hlt | ⟨hdeq, hrest⟩
  · exact Or.inl hlt
  · refine Or.inr ⟨hdeq.symm, ?_⟩
    rcases hrest with hblt | ⟨hbeq, hrest2⟩
    · exact Or.inl hblt
    · rcases hrest2 with hclt | ⟨hceq, _⟩
      · exact Or.inr ⟨hbeq, hclt⟩
      · exact absurd (Prod.ext hbeq hceq) hkey

/-- C9 witness: `C9_output_ordered` on three groups released 2024-05-01
(B2), 2024-05-01 (B0) and 2024-03-01 (B1): output order B0, B2, B1. -/
theorem C9_output_ordered_witness :
    (get_client_vulns ordTs ordVs none none none).Pairwise crowOrder ∧
      (get_client_vulns ordTs ordVs none none none).map
          (fun rec => rec.id_bulletin) = ["B0", "B2", "B1"] :=
  ⟨C9_output_ordered ordTs ordVs none none none (by decide), by decide⟩

/-! ## C10: the single-row update -/

/-- C10: `update_client_vuln` modifies exactly the rows whose id equals
`row_id`, and of those only the status, comment and treatment-date fields:
an explicitly supplied (non-empty) treatment date is always stored, even
for closed statuses; with no date supplied, a closed status leaves the
stored treatment date unchanged and any other status sets it to the
current date. -/
theorem C10_update_single_row (ts : List TrackRow) (row_id : Nat)
    (status comment : String) (date_traitement : Option String)
    (today : String) :
    ((update_client_vuln ts row_id status comment date_traitement today).length =
        ts.length) ∧
      ∀ i, i < ts.length →
        (((ts.getD i default).id ≠ row_id →
            (update_client_vuln ts row_id status comment date_traitement
              today).getD i default = ts.getD i default) ∧
          ((ts.getD i default).id = row_id →
            ((update_client_vuln ts row_id status comment date_traitement
                today).getD i default).id = (ts.getD i default).id ∧
            ((update_client_vuln ts row_id status comment date_traitement
                today).getD i default).id_bulletin =
              (ts.getD i default).id_bulletin ∧
            ((update_client_vuln ts row_id status comment date_traitement
                today).getD i default).cve_id = (ts.getD i default).cve_id ∧
            ((update_client_vuln ts row_id status comment date_traitement
                today).getD i default).client = (ts.getD i default).client ∧
            ((update_client_vuln ts row_id status comment date_traitement
                today).getD i default).Responsable_resolution =
              (ts.getD i default).Responsable_resolution ∧
            ((update_client_vuln ts row_id status comment date_traitement
                today).getD i default).status = status ∧
            ((update_client_vuln ts row_id status comment date_traitement
                today).getD i default).comment = comment ∧
            (∀ d : String, date_traitement = some d → d ≠ "" →
              ((update_client_vuln ts row_id status comment date_traitement
                  today).getD i default).Date_de_traitement = d) ∧
            (py_truthy date_traitement = false → status ∈ closed_statuses →
              ((update_client_vuln ts row_id status comment date_traitement
                  today).getD i default).Date_de_traitement =
                (ts.getD i default).Date_de_traitement) ∧
            (py_truthy date_traitement = false → status ∉ closed_statuses →
              ((update_client_vuln ts row_id status comment date_traitement
                  today).getD i default).Date_de_traitement = today))) := by
  by_cases htr : py_truthy date_traitement = true
  · have hdef : update_client_vuln ts row_id status comment date_traitement today =
        ts.map fun r =>
          if r.id = row_id then
            { r with status := status, comment := comment,
                     Date_de_traitement := date_traitement.getD "" }
          else r := by
      unfold update_client_vuln
      rw [if_pos htr]
    refine ⟨by rw [hdef]; simp, ?_⟩
    intro i hi
    rw [hdef, getD_map_lt _ default _ ts i hi]
    constructor
    · intro hid
      rw [if_neg hid]
    · intro hid
      rw [if_pos hid]
      refine ⟨rfl, rfl, rfl, rfl, rfl, rfl, rfl, ?_, ?_, ?_⟩
      · intro d hd _
        rw [hd]
        rfl
      · intro hft _
        rw [htr] at hft
        cases hft
      · intro hft _
        rw [htr] at hft
        cases hft
  · have htrf : py_truthy date_traitement = false := by
      cases h' : py_truthy date_traitement
      · rfl
      · exact absurd h' htr
    have hnod : ∀ d : String, date_traitement = some d → d ≠ "" → False := by
      intro d hd hne
      rw [hd] at htrf
      simp [py_truthy] at htrf
      exact hne htrf
    by_cases hopen : status ∈ open_statuses
    · have hncl : status ∉ closed_statuses := by
        intro hcl
        have : ∀ s ∈ open_statuses, s ∉ closed_statuses := by decide
        exact this status hopen hcl
      have hdef : update_client_vuln ts row_id status comment date_traitement today =
          ts.map fun r =>
            if r.id = row_id then
              { r with status := status, comment := comment,
                       Date_de_traitement := today }
            else r := by
        unfold update_client_vuln
        rw [if_neg htr, if_pos hopen]
      refine ⟨by rw [hdef]; simp, ?_⟩
      intro i hi
      rw [hdef, getD_map_lt _ default _ ts i hi]
      constructor
      · intro hid
        rw [if_neg hid]
      · intro hid
        rw [if_pos hid]
        refine ⟨rfl, rfl, rfl, rfl, rfl, rfl, rfl, ?_, ?_, ?_⟩
        · intro d hd hne
          exact absurd (hnod d hd hne) (fun h => h)
        · intro _ hcl
          exact absurd hcl hncl
        · intro _ _
          rfl
    · by_cases hcl : status ∈ closed_statuses
      · have hdef : update_client_vuln ts row_id status comment date_traitement today =
            ts.map fun r =>
              if r.id = row_id then { r with status := status, comment := comment }
              else r := by
          unfold update_client_vuln
          rw [if_neg htr, if_neg hopen, if_pos hcl]
        refine ⟨by rw [hdef]; simp, ?_⟩
        intro i hi
        rw [hdef, getD_map_lt _ default _ ts i hi]
        constructor
        · intro hid
          rw [if_neg hid]
        · intro hid
          rw [if_pos hid]
          refine ⟨rfl, rfl, rfl, rfl, rfl, rfl, rfl, ?_, ?_, ?_⟩
          · intro d hd hne
            exact absurd (hnod d hd hne) (fun h => h)
          · intro _ _
            rfl
          · intro _ hncl
            exact absurd hcl hncl
      · have hdef : update_client_vuln ts row_id status comment date_traitement today =
            ts.map fun r =>
              if r.id = row_id then
                { r with status := status, comment := comment,
                         Date_de_traitement := today }
              else r := by
          unfold update_client_vuln
          rw [if_neg htr, if_neg hopen, if_neg hcl]
        refine ⟨by rw [hdef]; simp, ?_⟩
        intro i hi
        rw [hdef, getD_map_lt _ default _ ts i hi]
        constructor
        · intro hid
          rw [if_neg hid]
        · intro hid
          rw [if_pos hid]
          refine ⟨rfl, rfl, rfl, rfl, rfl, rfl, rfl, ?_, ?_, ?_⟩
          · intro d hd hne
            exact absurd (hnod d hd hne) (fun h => h)
          · intro _ hclx
            exact absurd hclx hcl
          · intro _ _
            rfl

/-- C10 witness: updating row 1 of a two-row store with an explicit date
stores that date even though the new status is closed, and leaves row 2
untouched; `C10_update_single_row` supplies both facts. -/
theorem C10_update_single_row_witness :
    ((update_client_vuln [rowOpen, rowClos] 1 "Clos (Traité)" "done"
        (some "2024-06-01") "2024-07-01").getD 0 default).Date_de_traitement =
        "2024-06-01" ∧
      ((update_client_vuln [rowOpen, rowClos] 1 "Clos (Traité)" "done"
          (some "2024-06-01") "2024-07-01").getD 0 default).status =
        "Clos (Traité)" ∧
      (update_client_vuln [rowOpen, rowClos] 1 "Clos (Traité)" "done"
          (some "2024-06-01") "2024-07-01").getD 1 default = rowClos := by
  have h := C10_update_single_row [rowOpen, rowClos] 1 "Clos (Traité)" "done"
    (some "2024-06-01") "2024-07-01"
  have h0 := (h.2 0 (by decide)).2 (by decide)
  have h1 := (h.2 1 (by decide)).1 (by decide)
  refine ⟨?_, ?_, ?_⟩
  · exact (h0.2.2.2.2.2.2.2.1 "2024-06-01" rfl (by decide))
  · exact h0.2.2.2.2.2.1
  · exact h1.trans (by decide)

end AutoVeille
